import Mathlib

/-!
# Verification of the `ts-json-schema` type-to-schema compiler

A shallow embedding of the repository's `compile` function (`src/compiler.ts`)
together with its helpers (`src/utils.ts`): `parseFloatTag`, `parseIntTag` and
`applyJSDocTags`.  Schema nodes — plain JavaScript objects in the source — are
modelled as insertion-ordered association lists of key/value pairs, with the
JavaScript assignment semantics (updating an existing key keeps its position;
a new key is appended).  The host's `JSON.parse` is treated as an external
collaborator and abstracted as a parameter `jp : String → Option JVal`; the
host's `parseFloat` and `parseInt` are modelled concretely from their
ECMAScript prefix-parsing semantics on finite decimal inputs, with exact
rational values.  `ts.Type` descriptors are modelled by the inductive `Ty`
recording exactly the observations `compile` makes of the type checker.
-/

set_option maxHeartbeats 1000000

namespace TsJsonSchema

/-- JavaScript runtime values as stored in a schema node.  A finite number
value is an exact rational (every binary64 double except the infinities and
NaN denotes a rational, exactly); `inf` is a signed JavaScript `Infinity`
(storable, e.g., by `parseFloat("Infinity")`); NaN is never stored because
every store site is guarded by an `isNaN` check. -/
inductive JVal : Type where
  | str (s : String)
  | num (q : ℚ)
  | inf (neg : Bool)
  | jbool (b : Bool)
  | jnull
  | arr (elems : List JVal)
  | obj (fields : List (String × JVal))

/-- A schema node: a JavaScript object, i.e. an insertion-ordered list of
key/value pairs. -/
abbrev SObj : Type := List (String × JVal)

/-- JavaScript property read `o[k]`: the value at the (unique) occurrence of
key `k`, if present. -/
def getKey (o : SObj) (k : String) : Option JVal :=
  (o.find? (fun p => p.1 = k)).map Prod.snd

/-- JavaScript property assignment `o[k] = v`: update in place if the key is
present (keeping its position), otherwise append. -/
def setKey (o : SObj) (k : String) (v : JVal) : SObj :=
  if o.any (fun p => p.1 = k) then
    o.map (fun p => if p.1 = k then (k, v) else p)
  else
    o ++ [(k, v)]

/-- The JavaScript strict-equality test `o["type"] === t` for a string `t`:
true exactly when the key is present with that string value. -/
def typeIs (o : SObj) (t : String) : Bool :=
  match getKey o "type" with
  | some (.str v) => v = t
  | _ => false

/-- The tag map produced by `extractJSDocTags`: an insertion-ordered
`Map<string,string>` from tag name to raw tag text.  Keys are unique (the
`Map` invariant); lookups take the first occurrence. -/
abbrev TagMap : Type := List (String × String)

/-- `tags.has(name)` on the extracted tag map. -/
def tmHas (tags : TagMap) (name : String) : Bool :=
  tags.any (fun p => p.1 = name)

/-- `tags.get(name)` on the extracted tag map. -/
def tmGet (tags : TagMap) (name : String) : Option String :=
  (tags.find? (fun p => p.1 = name)).map Prod.snd

/-- Modelled from the host: the ECMAScript `StrWhiteSpaceChar` set skipped
by `parseFloat`/`parseInt` — `WhiteSpace` (TAB, VT, FF, SP, NBSP, ZWNBSP
and the Unicode `Space_Separator` category) and `LineTerminator`
(LF, CR, LS, PS), by code point. -/
def isWs (c : Char) : Bool :=
  c.toNat ∈ [0x9, 0xA, 0xB, 0xC, 0xD, 0x20, 0xA0, 0x1680,
    0x2000, 0x2001, 0x2002, 0x2003, 0x2004, 0x2005, 0x2006, 0x2007,
    0x2008, 0x2009, 0x200A, 0x2028, 0x2029, 0x202F, 0x205F, 0x3000, 0xFEFF]

/-- Drop leading whitespace characters. -/
def skipWs : List Char → List Char
  | [] => []
  | c :: rest => if isWs c then skipWs rest else c :: rest

/-- Read an optional sign character, returning whether the sign is negative
and the remaining characters. -/
def readSign : List Char → Bool × List Char
  | [] => (false, [])
  | c :: rest =>
    if c = '-' then (true, rest)
    else if c = '+' then (false, rest)
    else (false, c :: rest)

/-- Split off the longest prefix of decimal digits. -/
def spanDigits : List Char → List Char × List Char
  | [] => ([], [])
  | c :: rest =>
    if c.isDigit then
      let (ds, l) := spanDigits rest
      (c :: ds, l)
    else ([], c :: rest)

/-- The natural number denoted by a list of decimal digits (empty list ↦ 0). -/
def digitsToNat (l : List Char) : ℕ :=
  l.foldl (fun acc c => 10 * acc + (c.toNat - '0'.toNat)) 0

/-- The optional `. digits` part of the `parseFloat` grammar: consumed only
when the next character is a dot. -/
def fracPart : List Char → List Char × List Char
  | '.' :: rest => spanDigits rest
  | l => ([], l)

/-- The optional `e [sign] digits` part of the `parseFloat` grammar: the
exponent's sign and digits, consumed only when the next character is `e`/`E`
(an exponent marker with no digits contributes an empty digit list, i.e.
exponent 0, matching the longest-valid-prefix rule). -/
def expPart : List Char → Bool × List Char
  | c :: rest =>
    if c = 'e' ∨ c = 'E' then
      let (esign, rest') := readSign rest
      let (eDs, _) := spanDigits rest'
      (esign, eDs)
    else (false, [])
  | [] => (false, [])

/-- A JavaScript number that is not NaN: a finite binary64 value (an exact
rational) or a signed infinity.  NaN is represented as `none` at the
`Option JsFloat` call sites, matching the `isNaN` guards in the source. -/
inductive JsFloat : Type where
  | finite (q : ℚ)
  | inf (neg : Bool)
deriving DecidableEq, Repr

/-- Fuel-driven binary length: `bitLenAux fuel n` is the number of binary
digits of `n` when `fuel ≥ n` (so `bitLen n := bitLenAux n n` is exact). -/
def bitLenAux : ℕ → ℕ → ℕ
  | 0, _ => 0
  | fuel + 1, n => if n = 0 then 0 else bitLenAux fuel (n / 2) + 1

/-- Number of binary digits of `n` (`0 ↦ 0`, `1 ↦ 1`, `2 ↦ 2`, `4 ↦ 3`, …). -/
def bitLen (n : ℕ) : ℕ := bitLenAux n n

/-- `⌊log₂ x⌋` for a positive rational `x = p/q`, from the binary lengths of
`p` and `q`: the answer is `bitLen p - bitLen q` or one less, decided by one
exact comparison. -/
def floorLog2 (x : ℚ) : ℤ :=
  let p := x.num.toNat
  let q := x.den
  let bp := bitLen p
  let bq := bitLen q
  if bq ≤ bp then
    (if q * 2 ^ (bp - bq) ≤ p then (bp - bq : ℤ) else (bp - bq : ℤ) - 1)
  else
    (if q ≤ p * 2 ^ (bq - bp) then -((bq - bp : ℕ) : ℤ) else -((bq - bp : ℕ) : ℤ) - 1)

/-- `x · 2^k` as an exact rational, for an integer exponent `k`, computed on
the numerator/denominator pair. -/
def mulPow2 (x : ℚ) (k : ℤ) : ℚ :=
  if 0 ≤ k then Rat.divInt (x.num * ((2 ^ k.toNat : ℕ) : ℤ)) (x.den : ℤ)
  else Rat.divInt x.num ((x.den : ℤ) * ((2 ^ (-k).toNat : ℕ) : ℤ))

/-- Round an exact rational to the nearest integer, ties to even (the
IEEE 754 `roundTiesToEven` rule at integer granularity): the fractional part
`x - ⌊x⌋ = (num - ⌊x⌋·den)/den` is compared against `1/2` by comparing its
doubled numerator with the denominator. -/
def roundHalfEven (x : ℚ) : ℤ :=
  let f := x.floor
  let twiceFrac : ℤ := 2 * (x.num - f * (x.den : ℤ))
  if twiceFrac < (x.den : ℤ) then f
  else if ((x.den : ℤ)) < twiceFrac then f + 1
  else if f % 2 = 0 then f else f + 1

/-- Modelled from the host: rounding of an exact rational to the nearest
IEEE 754 binary64 value, ties to even — the `Number` value ECMAScript gives
to an exact mathematical value.  The magnitude is scaled into its binade
(clamped at the subnormal exponent `-1022`), its 53-bit significand is
rounded half-to-even, and magnitudes reaching `2^1024` overflow to the
signed infinity; a magnitude rounding to `0` underflows to zero. -/
def roundToDouble (x : ℚ) : JsFloat :=
  if x = 0 then .finite 0
  else
    let a : ℚ := if x < 0 then -x else x
    let e : ℤ := max (floorLog2 a) (-1022)
    let n : ℤ := roundHalfEven (mulPow2 a (52 - e))
    if 1024 ≤ e then .inf (x < 0)
    else if n = 2 ^ 53 ∧ e = 1023 then .inf (x < 0)
    else
      let mag : ℚ := mulPow2 ((n : ℤ) : ℚ) (e - 52)
      .finite (if x < 0 then -mag else mag)

/-- Modelled from the host: ECMAScript `parseFloat` — skip `StrWhiteSpace`,
read an optional sign, then the longest prefix matching
`Infinity | digits [. digits] [e [sign] digits]`; `none` (NaN) when neither
the `Infinity` keyword nor a mantissa digit is consumed, otherwise the exact
rational value of the consumed prefix rounded to the nearest binary64 value
(overflowing to the signed infinity). -/
def jsParseFloat (s : String) : Option JsFloat :=
  let l := skipWs s.data
  let (neg, l) := readSign l
  if l.take 8 = "Infinity".data then some (.inf neg)
  else
    let (intDs, l) := spanDigits l
    let (fracDs, l) := fracPart l
    if intDs = [] ∧ fracDs = [] then none
    else
      let expNegDs : Bool × List Char := expPart l
      -- exact value: ± (intpart·10^|frac| + fracpart) · 10^(±exp) / 10^|frac|
      let num : ℤ := (digitsToNat intDs * 10 ^ fracDs.length + digitsToNat fracDs : ℕ)
      let num : ℤ := if neg then -num else num
      let e : ℕ := digitsToNat expNegDs.2
      if expNegDs.1 then
        some (roundToDouble (Rat.divInt num ((10 : ℤ) ^ fracDs.length * (10 : ℤ) ^ e)))
      else
        some (roundToDouble (Rat.divInt (num * (10 : ℤ) ^ e) ((10 : ℤ) ^ fracDs.length)))

/-- Modelled from the host: ECMAScript `parseInt(s, 10)` — skip
`StrWhiteSpace`, read an optional sign, then the longest prefix of decimal
digits; `none` (NaN) when no digit is consumed, otherwise the exact
mathematical integer denoted by the digits, as the `Number` (binary64)
value `parseInt` returns. -/
def jsParseInt (s : String) : Option JsFloat :=
  let l := skipWs s.data
  let (neg, l) := readSign l
  let (ds, _) := spanDigits l
  if ds = [] then none
  else some (roundToDouble (if neg then -(digitsToNat ds : ℚ) else (digitsToNat ds : ℚ)))

/-- `parseFloatTag` from `src/utils.ts`: look the tag up; `parseFloat` its
text; drop it when the parse yields NaN. -/
def parseFloatTag (tags : TagMap) (tagName : String) : Option JsFloat :=
  match tmGet tags tagName with
  | some v => jsParseFloat v
  | none => none

/-- `parseIntTag` from `src/utils.ts`: look the tag up; `parseInt(_, 10)` its
text; drop it when the parse yields NaN. -/
def parseIntTag (tags : TagMap) (tagName : String) : Option JsFloat :=
  match tmGet tags tagName with
  | some v => jsParseInt v
  | none => none

/-- The recognized-tag set from `src/utils.ts` (`knownTags`). -/
def knownTags : List String :=
  ["minimum", "maximum", "multipleOf", "integer", "minLength", "maxLength",
   "pattern", "format", "minItems", "maxItems", "default"]

/-- `JSON.parse(text)` with the source's `try/catch` fallback: the parsed
value when the host parser succeeds, the raw text as a string otherwise. -/
def jsonOrRaw (jp : String → Option JVal) (text : String) : JVal :=
  match jp text with
  | some v => v
  | none => JVal.str text

/-- Step 1 of `applyJSDocTags` (`src/utils.ts` lines 72–74):
`if (description) schema.description = description`.  `if (description)` is
the JavaScript truthiness test, false on `undefined` and on the empty
string. -/
def applyDescription (schema : SObj) (description : Option String) : SObj :=
  match description with
  | some d => if d = "" then schema else setKey schema "description" (.str d)
  | none => schema

/-- The JavaScript number value as stored in a schema node. -/
def numVal : JsFloat → JVal
  | .finite q => .num q
  | .inf b => .inf b

/-- The source pattern `const x = parseFloatTag(tags, n); if (x !== undefined)
schema[n] = x`. -/
def setNumField (s : SObj) (k : String) : Option JsFloat → SObj
  | some v => setKey s k (numVal v)
  | none => s

/-- The same pattern for a `parseIntTag`-valued tag. -/
def setIntField (s : SObj) (k : String) : Option JsFloat → SObj
  | some v => setKey s k (numVal v)
  | none => s

/-- The source pattern `if (tags.has(n)) schema[n] = tags.get(n)` for a
string-valued tag. -/
def setStrField (s : SObj) (k : String) : Option String → SObj
  | some v => setKey s k (.str v)
  | none => s

/-- Step 2 of `applyJSDocTags` (the "Number validations" block): gated on
`schema.type ∈ {"number", "integer"}`; `minimum`/`maximum`/`multipleOf`
parsed with `parseFloat`, then `@integer` forces `schema.type = "integer"`. -/
def applyNumberGroup (schema : SObj) (tags : TagMap) : SObj :=
  if typeIs schema "number" ∨ typeIs schema "integer" then
    let s := setNumField schema "minimum" (parseFloatTag tags "minimum")
    let s := setNumField s "maximum" (parseFloatTag tags "maximum")
    let s := setNumField s "multipleOf" (parseFloatTag tags "multipleOf")
    if tmHas tags "integer" then setKey s "type" (.str "integer") else s
  else schema

/-- Step 3 of `applyJSDocTags` (the "String validations" block): gated on
`schema.type = "string"`; `minLength`/`maxLength` parsed with
`parseInt(_, 10)`; `pattern`/`format` copied verbatim. -/
def applyStringGroup (schema : SObj) (tags : TagMap) : SObj :=
  if typeIs schema "string" then
    let s := setIntField schema "minLength" (parseIntTag tags "minLength")
    let s := setIntField s "maxLength" (parseIntTag tags "maxLength")
    let s := setStrField s "pattern" (tmGet tags "pattern")
    setStrField s "format" (tmGet tags "format")
  else schema

/-- Step 4 of `applyJSDocTags` (the "Array validations" block): gated on
`schema.type = "array"`; `minItems`/`maxItems` parsed with
`parseInt(_, 10)`. -/
def applyArrayGroup (schema : SObj) (tags : TagMap) : SObj :=
  if typeIs schema "array" then
    let s := setIntField schema "minItems" (parseIntTag tags "minItems")
    setIntField s "maxItems" (parseIntTag tags "maxItems")
  else schema

/-- Step 5 of `applyJSDocTags` (the "Default value" block): `@default`,
regardless of the node's shape, with the `JSON.parse`-or-raw fallback. -/
def applyDefault (jp : String → Option JVal) (schema : SObj) (tags : TagMap) : SObj :=
  match tmGet tags "default" with
  | some txt => setKey schema "default" (jsonOrRaw jp txt)
  | none => schema

/-- Step 6 of `applyJSDocTags` (the "unknown tags" loop): every tag whose
name is not in `knownTags` is stored under `x-` + name, with the
`JSON.parse`-or-raw fallback. -/
def applyUnknown (jp : String → Option JVal) (schema : SObj) (tags : TagMap) : SObj :=
  tags.foldl (fun acc p =>
    if p.1 ∈ knownTags then acc
    else setKey acc ("x-" ++ p.1) (jsonOrRaw jp p.2)) schema

/-- `applyJSDocTags` from `src/utils.ts` (the shape-conditional variant the
specification adopts): the six blocks of the source function in order, each
reading the node state left by the previous one. -/
def applyJSDocTags (jp : String → Option JVal) (schema : SObj) (tags : TagMap)
    (description : Option String) : SObj :=
  applyUnknown jp
    (applyDefault jp
      (applyArrayGroup
        (applyStringGroup
          (applyNumberGroup
            (applyDescription schema description) tags) tags) tags) tags) tags

/-- The type-flag bits `compile` inspects (`ts.TypeFlags`).  Flags are
independent booleans because `compile` tests them independently with
bitwise `&`; `fEnumLike` stands for `flags & (EnumLike | Enum)`. -/
structure TyFlags : Type where
  fString : Bool := false
  fStringLit : Bool := false
  fNumber : Bool := false
  fNumberLit : Bool := false
  fBoolean : Bool := false
  fBoolLit : Bool := false
  fNull : Bool := false
  fUndefined : Bool := false
  fEnumLike : Bool := false
  fObject : Bool := false
deriving DecidableEq, Repr

/-- An object member as `compile` observes it via `getPropertiesOfType`:
its name, the `SymbolFlags.Optional` bit, and the member symbol's extracted
tag map and documentation comment. -/
structure PropMeta : Type where
  name : String
  optionalFlag : Bool := false
  tags : TagMap := []
  descr : Option String := none
deriving DecidableEq, Repr

/-- A `ts.Type` descriptor, recording exactly the observations `compile`
makes of the type and the type checker:

* `fl` — the type-flag bits;
* `strVal` / `numVal` — the payloads of `StringLiteralType.value` and
  `NumberLiteralType.value` (meaningful only when the matching flag is set);
* `typeStr` — `typeChecker.typeToString(type)`;
* `union` — `some members` iff `type.isUnion()`, carrying `type.types`;
* `isArr` — `typeChecker.isArrayType(type)`;
* `typeArgs` — `typeArguments || resolvedTypeArguments` (`none` when that
  expression is not an array);
* `isTup` — `typeChecker.isTupleType(type)`;
* `isInter` — `type.isIntersection()`;
* `props` — `getPropertiesOfType(type)`, each with `getTypeOfSymbol`;
* `tags` / `descr` — the type's own symbol's extracted tags and
  documentation (`[]` / `none` when `getSymbol() || aliasSymbol` is absent). -/
inductive Ty : Type where
  | mk (fl : TyFlags) (strVal : String) (numVal : ℚ) (typeStr : String)
       (union : Option (List Ty))
       (isArr : Bool) (typeArgs : Option (List Ty))
       (isTup : Bool) (isInter : Bool)
       (props : List (PropMeta × Ty))
       (tags : TagMap) (descr : Option String)

def Ty.fl : Ty → TyFlags
  | .mk fl _ _ _ _ _ _ _ _ _ _ _ => fl

def Ty.strVal : Ty → String
  | .mk _ v _ _ _ _ _ _ _ _ _ _ => v

def Ty.numVal : Ty → ℚ
  | .mk _ _ v _ _ _ _ _ _ _ _ _ => v

def Ty.typeStr : Ty → String
  | .mk _ _ _ v _ _ _ _ _ _ _ _ => v

def Ty.union : Ty → Option (List Ty)
  | .mk _ _ _ _ v _ _ _ _ _ _ _ => v

def Ty.isArr : Ty → Bool
  | .mk _ _ _ _ _ v _ _ _ _ _ _ => v

def Ty.typeArgs : Ty → Option (List Ty)
  | .mk _ _ _ _ _ _ v _ _ _ _ _ => v

def Ty.isTup : Ty → Bool
  | .mk _ _ _ _ _ _ _ v _ _ _ _ => v

def Ty.isInter : Ty → Bool
  | .mk _ _ _ _ _ _ _ _ v _ _ _ => v

def Ty.props : Ty → List (PropMeta × Ty)
  | .mk _ _ _ _ _ _ _ _ _ v _ _ => v

def Ty.tags : Ty → TagMap
  | .mk _ _ _ _ _ _ _ _ _ _ v _ => v

def Ty.descr : Ty → Option String
  | .mk _ _ _ _ _ _ _ _ _ _ _ v => v

/-- The enum-branch collection loop (`compile` lines 79–88): for each union
member, push `StringLiteralType.value`, else `NumberLiteralType.value`,
else skip. -/
def enumLitVals : List Ty → List JVal
  | [] => []
  | m :: rest =>
    if m.fl.fStringLit then JVal.str m.strVal :: enumLitVals rest
    else if m.fl.fNumberLit then JVal.num m.numVal :: enumLitVals rest
    else enumLitVals rest

/-- The union-branch collection loop (`compile` lines 98–113): collect
string/number/boolean literal values in order (booleans via the rendered
type text), failing (`allLiterals = false`, with `break`) at the first
non-literal member. -/
def unionLitVals : List Ty → Option (List JVal)
  | [] => some []
  | m :: rest =>
    if m.fl.fStringLit then (unionLitVals rest).map (JVal.str m.strVal :: ·)
    else if m.fl.fNumberLit then (unionLitVals rest).map (JVal.num m.numVal :: ·)
    else if m.fl.fBoolLit then
      (unionLitVals rest).map (JVal.jbool (m.typeStr = "true") :: ·)
    else none

/-- The enum branch's collected values (`compile` lines 78–88): values are
collected only when the `EnumLike`/`Enum` flag is set and the type is a
union; otherwise the collection stays empty and the branch falls through. -/
def enumBranchVals (fEnum : Bool) (un : Option (List Ty)) : List JVal :=
  if fEnum then
    match un with
    | some members => enumLitVals members
    | none => []
  else []

theorem enumBranchVals_false (un : Option (List Ty)) : enumBranchVals false un = [] := rfl

theorem enumBranchVals_none (b : Bool) : enumBranchVals b none = [] := by
  unfold enumBranchVals
  split <;> rfl

/-- The per-member optionality test (`compile` lines 159–162): the
`Optional` symbol flag, or the member type's `Undefined` flag, or a union
containing a member with the `Undefined` flag. -/
def isOptionalProp (pm : PropMeta) (pt : Ty) : Bool :=
  pm.optionalFlag || pt.fl.fUndefined ||
    (match pt.union with
     | some ms => ms.any (fun m => m.fl.fUndefined)
     | none => false)

mutual

/-- `compile` from `src/compiler.ts`: the ordered, first-match classification
of a type descriptor into a schema node.  A thrown `Error` is modelled as
`Except.error` carrying the exact message string. -/
def compile (jp : String → Option JVal) : Ty → Except String SObj
  | .mk fl strVal numVal typeStr union isArr typeArgs isTup isInter props tags descr =>
    if fl.fString then
      .ok (applyJSDocTags jp (setKey [] "type" (.str "string")) tags descr)
    else if fl.fStringLit then
      .ok (applyJSDocTags jp (setKey (setKey [] "type" (.str "string")) "const" (.str strVal))
        tags descr)
    else if fl.fNumber then
      .ok (applyJSDocTags jp (setKey [] "type" (.str "number")) tags descr)
    else if fl.fNumberLit then
      .ok (applyJSDocTags jp (setKey (setKey [] "type" (.str "number")) "const" (.num numVal))
        tags descr)
    else if fl.fBoolean then
      .ok (applyJSDocTags jp (setKey [] "type" (.str "boolean")) tags descr)
    else if fl.fBoolLit then
      .ok (applyJSDocTags jp
        (setKey (setKey [] "type" (.str "boolean")) "const" (.jbool (typeStr = "true")))
        tags descr)
    else if fl.fNull then
      .ok (applyJSDocTags jp (setKey [] "type" (.str "null")) tags descr)
    else if fl.fUndefined then
      .ok (applyJSDocTags jp (setKey [] "type" (.str "null")) tags descr)
    else
      -- Enum branch: collects values only when the type is a union, and
      -- falls through when no value was collected.
      if (enumBranchVals fl.fEnumLike union).isEmpty = false then
        .ok (applyJSDocTags jp
          (setKey [] "enum" (.arr (enumBranchVals fl.fEnumLike union))) tags descr)
      else
        match union with
        | some members =>
          match unionLitVals members with
          | some vals =>
            if vals.isEmpty = false then
              .ok (applyJSDocTags jp (setKey [] "enum" (.arr vals)) tags descr)
            else
              .error "Complex union types are not supported. Only literal type unions (enums) are supported."
          | none =>
            .error "Complex union types are not supported. Only literal type unions (enums) are supported."
        | none =>
          if isArr then
            match typeArgs with
            | some (a :: _) =>
              match compile jp a with
              | .error e => .error e
              | .ok items =>
                .ok (applyJSDocTags jp
                  (setKey (setKey [] "type" (.str "array")) "items" (.obj items)) tags descr)
            | _ =>
              .ok (applyJSDocTags jp (setKey [] "type" (.str "array")) tags descr)
          else if isTup then
            .error "Tuple types are not supported."
          else if fl.fObject then
            match compileProps jp props [] [] with
            | .error e => .error e
            | .ok (propsObj, req) =>
              let base := setKey (setKey [] "type" (.str "object")) "properties" (.obj [])
              let base := setKey base "properties" (.obj propsObj)
              let base := if req ≠ [] then setKey base "required" (.arr (req.map .str)) else base
              .ok (applyJSDocTags jp base tags descr)
          else if isInter then
            .error "Intersection types are not supported."
          else
            .error ("Unsupported type: " ++ typeStr)

/-- The object-member loop (`compile` lines 153–174): iterate members in
declaration order, accumulating the `properties` sub-object and the
`required` list; each member's node is its type's compilation with the
member's own tags/description applied on top. -/
def compileProps (jp : String → Option JVal) :
    List (PropMeta × Ty) → SObj → List String → Except String (SObj × List String)
  | [], acc, req => .ok (acc, req)
  | (pm, pt) :: rest, acc, req =>
    let req := if isOptionalProp pm pt then req else req ++ [pm.name]
    match compile jp pt with
    | .error e => .error e
    | .ok child =>
      let child := applyJSDocTags jp child pm.tags pm.descr
      compileProps jp rest (setKey acc pm.name (.obj child)) req

end

/-! ## Frame lemmas about the object primitives -/

theorem getKey_map_set_self (o : SObj) (k : String) (v : JVal)
    (h : o.any (fun p => p.1 = k) = true) :
    getKey (o.map (fun p => if p.1 = k then (k, v) else p)) k = some v := by
  induction o with
  | nil => simp at h
  | cons p rest ih =>
    by_cases hp : p.1 = k
    · simp [getKey, List.find?, hp]
    · simp only [List.any_cons, Bool.or_eq_true, decide_eq_true_eq] at h
      rcases h with h | h
      · exact absurd h hp
      · simpa [getKey, List.find?, hp] using ih (by simpa using h)

theorem getKey_map_set_ne (o : SObj) (k : String) (v : JVal) (k' : String) (h : k' ≠ k) :
    getKey (o.map (fun p => if p.1 = k then (k, v) else p)) k' = getKey o k' := by
  induction o with
  | nil => simp [getKey]
  | cons p rest ih =>
    by_cases hp : p.1 = k
    · have hpk' : p.1 ≠ k' := by rw [hp]; exact Ne.symm h
      have hif : (if p.1 = k then (k, v) else p) = (k, v) := by simp [hp]
      simp only [List.map_cons, getKey, List.find?, hif]
      simp only [getKey] at ih
      simpa [Ne.symm h, hpk'] using ih
    · have hif : (if p.1 = k then (k, v) else p) = p := by simp [hp]
      by_cases hp' : p.1 = k'
      · simp only [List.map_cons, hif]
        simp [getKey, List.find?, hp']
      · simp only [List.map_cons, getKey, List.find?, hif]
        simp only [getKey] at ih
        simpa [hp'] using ih

theorem getKey_eq_none_of_not_any (o : SObj) (k : String)
    (h : o.any (fun p => p.1 = k) = false) : getKey o k = none := by
  induction o with
  | nil => rfl
  | cons p rest ih =>
    simp only [List.any_cons, Bool.or_eq_false_iff, decide_eq_false_iff_not] at h
    simpa [getKey, List.find?, h.1] using ih (by simp [h.2])

theorem getKey_append_single (o : SObj) (k : String) (v : JVal) (k' : String) :
    getKey (o ++ [(k, v)]) k' =
      ((getKey o k').orElse (fun _ => if k = k' then some v else none)) := by
  induction o with
  | nil => by_cases hk : k = k' <;> simp [getKey, List.find?, hk, Option.orElse]
  | cons p rest ih =>
    by_cases hp : p.1 = k'
    · simp [getKey, List.find?, hp, Option.orElse]
    · simp only [List.cons_append, getKey, List.find?] at *
      simpa [hp] using ih

theorem getKey_setKey_self (o : SObj) (k : String) (v : JVal) :
    getKey (setKey o k v) k = some v := by
  unfold setKey
  split
  · exact getKey_map_set_self o k v (by assumption)
  · rename_i h
    rw [getKey_append_single,
        getKey_eq_none_of_not_any o k (by simp only [Bool.not_eq_true] at h; exact h)]
    simp [Option.orElse]

theorem getKey_setKey_ne (o : SObj) (k : String) (v : JVal) (k' : String) (h : k' ≠ k) :
    getKey (setKey o k v) k' = getKey o k' := by
  unfold setKey
  split
  · exact getKey_map_set_ne o k v k' h
  · rw [getKey_append_single]
    cases hg : getKey o k' with
    | some w => simp [Option.orElse]
    | none => simp [Option.orElse, Ne.symm h]

theorem typeIs_setKey_ne (o : SObj) (k : String) (v : JVal) (t : String) (h : k ≠ "type") :
    typeIs (setKey o k v) t = typeIs o t := by
  unfold typeIs
  rw [getKey_setKey_ne o k v "type" (Ne.symm h)]

/-! ## Preservation lemmas for the constraint-application steps -/

theorem getKey_setNumField_ne (s : SObj) (k : String) (v : Option JsFloat) (k' : String)
    (h : k' ≠ k) : getKey (setNumField s k v) k' = getKey s k' := by
  cases v with
  | some q => exact getKey_setKey_ne s k _ k' h
  | none => rfl

theorem getKey_setIntField_ne (s : SObj) (k : String) (v : Option JsFloat) (k' : String)
    (h : k' ≠ k) : getKey (setIntField s k v) k' = getKey s k' := by
  cases v with
  | some q => exact getKey_setKey_ne s k _ k' h
  | none => rfl

theorem getKey_setStrField_ne (s : SObj) (k : String) (v : Option String) (k' : String)
    (h : k' ≠ k) : getKey (setStrField s k v) k' = getKey s k' := by
  cases v with
  | some q => exact getKey_setKey_ne s k _ k' h
  | none => rfl

theorem getKey_applyDescription_ne (s : SObj) (d : Option String) (k : String)
    (h : k ≠ "description") : getKey (applyDescription s d) k = getKey s k := by
  unfold applyDescription
  cases d with
  | some dd =>
    by_cases he : dd = ""
    · simp [he]
    · simp [he, getKey_setKey_ne _ _ _ _ h]
  | none => rfl

theorem getKey_applyNumberGroup_ne (s : SObj) (tags : TagMap) (k : String)
    (h1 : k ≠ "minimum") (h2 : k ≠ "maximum") (h3 : k ≠ "multipleOf") (h4 : k ≠ "type") :
    getKey (applyNumberGroup s tags) k = getKey s k := by
  unfold applyNumberGroup
  split
  · split
    · rw [getKey_setKey_ne _ _ _ _ h4, getKey_setNumField_ne _ _ _ _ h3,
        getKey_setNumField_ne _ _ _ _ h2, getKey_setNumField_ne _ _ _ _ h1]
    · rw [getKey_setNumField_ne _ _ _ _ h3,
        getKey_setNumField_ne _ _ _ _ h2, getKey_setNumField_ne _ _ _ _ h1]
  · rfl

theorem getKey_applyStringGroup_ne (s : SObj) (tags : TagMap) (k : String)
    (h1 : k ≠ "minLength") (h2 : k ≠ "maxLength") (h3 : k ≠ "pattern") (h4 : k ≠ "format") :
    getKey (applyStringGroup s tags) k = getKey s k := by
  unfold applyStringGroup
  split
  · rw [getKey_setStrField_ne _ _ _ _ h4, getKey_setStrField_ne _ _ _ _ h3,
      getKey_setIntField_ne _ _ _ _ h2, getKey_setIntField_ne _ _ _ _ h1]
  · rfl

theorem getKey_applyArrayGroup_ne (s : SObj) (tags : TagMap) (k : String)
    (h1 : k ≠ "minItems") (h2 : k ≠ "maxItems") :
    getKey (applyArrayGroup s tags) k = getKey s k := by
  unfold applyArrayGroup
  split
  · rw [getKey_setIntField_ne _ _ _ _ h2, getKey_setIntField_ne _ _ _ _ h1]
  · rfl

theorem getKey_applyDefault_ne (jp : String → Option JVal) (s : SObj) (tags : TagMap)
    (k : String) (h : k ≠ "default") : getKey (applyDefault jp s tags) k = getKey s k := by
  unfold applyDefault
  split
  · exact getKey_setKey_ne _ _ _ _ h
  · rfl

/-- No string of the form `x-` + n equals a string whose first two characters
are not `x-`. -/
theorem xkey_ne (n k : String) (h : k.data.take 2 ≠ ['x', '-']) : "x-" ++ n ≠ k := by
  intro he
  apply h
  rw [← he, String.data_append]
  rfl

theorem getKey_applyUnknown_ne (jp : String → Option JVal) (s : SObj) (tags : TagMap)
    (k : String) (hx : ∀ n, "x-" ++ n ≠ k) :
    getKey (applyUnknown jp s tags) k = getKey s k := by
  unfold applyUnknown
  induction tags generalizing s with
  | nil => rfl
  | cons p rest ih =>
    rw [List.foldl_cons, ih]
    by_cases hkn : p.1 ∈ knownTags
    · simp [hkn]
    · simp [hkn, getKey_setKey_ne _ _ _ _ (Ne.symm (hx p.1))]

/-- Keys never written by `applyJSDocTags`: everything outside the twelve
keys of the recognized groups and the `x-` extension namespace. -/
theorem getKey_applyJSDocTags_ne (jp : String → Option JVal) (s : SObj) (tags : TagMap)
    (d : Option String) (k : String)
    (hd : k ≠ "description")
    (h1 : k ≠ "minimum") (h2 : k ≠ "maximum") (h3 : k ≠ "multipleOf") (h4 : k ≠ "type")
    (h5 : k ≠ "minLength") (h6 : k ≠ "maxLength") (h7 : k ≠ "pattern") (h8 : k ≠ "format")
    (h9 : k ≠ "minItems") (h10 : k ≠ "maxItems") (h11 : k ≠ "default")
    (hx : ∀ n, "x-" ++ n ≠ k) :
    getKey (applyJSDocTags jp s tags d) k = getKey s k := by
  unfold applyJSDocTags
  rw [getKey_applyUnknown_ne _ _ _ _ hx, getKey_applyDefault_ne _ _ _ _ h11,
    getKey_applyArrayGroup_ne _ _ _ h9 h10, getKey_applyStringGroup_ne _ _ _ h5 h6 h7 h8,
    getKey_applyNumberGroup_ne _ _ _ h1 h2 h3 h4, getKey_applyDescription_ne _ _ _ hd]

/-! ## Tracking the `type` discriminator through the steps -/

theorem typeIs_eq_of_getKey (s : SObj) (v t : String)
    (h : getKey s "type" = some (.str v)) : typeIs s t = decide (v = t) := by
  unfold typeIs
  rw [h]

theorem typeIs_eq_none (s : SObj) (t : String)
    (h : getKey s "type" = none) : typeIs s t = false := by
  unfold typeIs
  rw [h]

theorem typeIs_applyDescription (s : SObj) (d : Option String) (t : String) :
    typeIs (applyDescription s d) t = typeIs s t := by
  unfold typeIs
  rw [getKey_applyDescription_ne _ _ _ (by decide)]

theorem typeIs_applyStringGroup (s : SObj) (tags : TagMap) (t : String) :
    typeIs (applyStringGroup s tags) t = typeIs s t := by
  unfold typeIs
  rw [getKey_applyStringGroup_ne _ _ _ (by decide) (by decide) (by decide) (by decide)]

theorem typeIs_applyArrayGroup (s : SObj) (tags : TagMap) (t : String) :
    typeIs (applyArrayGroup s tags) t = typeIs s t := by
  unfold typeIs
  rw [getKey_applyArrayGroup_ne _ _ _ (by decide) (by decide)]

theorem applyNumberGroup_id_of_gate_false (s : SObj) (tags : TagMap)
    (hn : typeIs s "number" = false) (hi : typeIs s "integer" = false) :
    applyNumberGroup s tags = s := by
  unfold applyNumberGroup
  rw [if_neg]
  simp [hn, hi]

theorem applyStringGroup_id_of_gate_false (s : SObj) (tags : TagMap)
    (hs : typeIs s "string" = false) : applyStringGroup s tags = s := by
  unfold applyStringGroup
  rw [if_neg]
  simp [hs]

theorem applyArrayGroup_id_of_gate_false (s : SObj) (tags : TagMap)
    (ha : typeIs s "array" = false) : applyArrayGroup s tags = s := by
  unfold applyArrayGroup
  rw [if_neg]
  simp [ha]

/-- The number group can only leave the `type` key alone or set it to
`"integer"`: any other type-value test that was false stays false. -/
theorem typeIs_applyNumberGroup_false (s : SObj) (tags : TagMap) (t : String)
    (hne : t ≠ "integer") (h : typeIs s t = false) :
    typeIs (applyNumberGroup s tags) t = false := by
  unfold applyNumberGroup
  split
  · split
    · rw [typeIs_eq_of_getKey _ "integer" t (getKey_setKey_self _ _ _)]
      simpa using Ne.symm hne
    · unfold typeIs
      rw [getKey_setNumField_ne _ _ _ _ (by decide), getKey_setNumField_ne _ _ _ _ (by decide),
        getKey_setNumField_ne _ _ _ _ (by decide)]
      exact h
  · exact h

/-! ## Erasing a tag from the tag map -/

/-- Remove every entry with the given name from a tag map (on a well-formed
`Map` there is at most one). -/
def tmErase (tags : TagMap) (name : String) : TagMap :=
  tags.filter (fun p => p.1 ≠ name)

theorem tmErase_cons_drop (p : String × String) (rest : TagMap) (name : String)
    (hp : p.1 = name) : tmErase (p :: rest) name = tmErase rest name := by
  simp [tmErase, List.filter_cons, hp]

theorem tmErase_cons_keep (p : String × String) (rest : TagMap) (name : String)
    (hp : p.1 ≠ name) : tmErase (p :: rest) name = p :: tmErase rest name := by
  simp [tmErase, List.filter_cons, hp]

theorem tmGet_tmErase_ne (tags : TagMap) (name k : String) (h : k ≠ name) :
    tmGet (tmErase tags name) k = tmGet tags k := by
  induction tags with
  | nil => rfl
  | cons p rest ih =>
    by_cases hp : p.1 = name
    · have hpk : p.1 ≠ k := by rw [hp]; exact Ne.symm h
      rw [tmErase_cons_drop p rest name hp, ih]
      simp [tmGet, List.find?, hpk]
    · rw [tmErase_cons_keep p rest name hp]
      by_cases hk : p.1 = k
      · simp [tmGet, List.find?, hk]
      · simpa [tmGet, List.find?, hk] using ih

theorem tmHas_tmErase_ne (tags : TagMap) (name k : String) (h : k ≠ name) :
    tmHas (tmErase tags name) k = tmHas tags k := by
  induction tags with
  | nil => rfl
  | cons p rest ih =>
    by_cases hp : p.1 = name
    · have hpk : p.1 ≠ k := by rw [hp]; exact Ne.symm h
      rw [tmErase_cons_drop p rest name hp, ih]
      simp [tmHas, hpk]
    · rw [tmErase_cons_keep p rest name hp]
      by_cases hk : p.1 = k
      · simp [tmHas, hk]
      · simpa [tmHas, hk] using ih

theorem parseFloatTag_tmErase_ne (tags : TagMap) (name k : String) (h : k ≠ name) :
    parseFloatTag (tmErase tags name) k = parseFloatTag tags k := by
  unfold parseFloatTag
  rw [tmGet_tmErase_ne _ _ _ h]

theorem parseIntTag_tmErase_ne (tags : TagMap) (name k : String) (h : k ≠ name) :
    parseIntTag (tmErase tags name) k = parseIntTag tags k := by
  unfold parseIntTag
  rw [tmGet_tmErase_ne _ _ _ h]

theorem applyNumberGroup_tmErase (s : SObj) (tags : TagMap) (name : String)
    (h1 : name ≠ "minimum") (h2 : name ≠ "maximum") (h3 : name ≠ "multipleOf")
    (h4 : name ≠ "integer") :
    applyNumberGroup s (tmErase tags name) = applyNumberGroup s tags := by
  unfold applyNumberGroup
  rw [parseFloatTag_tmErase_ne _ _ _ (Ne.symm h1), parseFloatTag_tmErase_ne _ _ _ (Ne.symm h2),
    parseFloatTag_tmErase_ne _ _ _ (Ne.symm h3), tmHas_tmErase_ne _ _ _ (Ne.symm h4)]

theorem applyStringGroup_tmErase (s : SObj) (tags : TagMap) (name : String)
    (h1 : name ≠ "minLength") (h2 : name ≠ "maxLength") (h3 : name ≠ "pattern")
    (h4 : name ≠ "format") :
    applyStringGroup s (tmErase tags name) = applyStringGroup s tags := by
  unfold applyStringGroup
  rw [parseIntTag_tmErase_ne _ _ _ (Ne.symm h1), parseIntTag_tmErase_ne _ _ _ (Ne.symm h2),
    tmGet_tmErase_ne _ _ _ (Ne.symm h3), tmGet_tmErase_ne _ _ _ (Ne.symm h4)]

theorem applyArrayGroup_tmErase (s : SObj) (tags : TagMap) (name : String)
    (h1 : name ≠ "minItems") (h2 : name ≠ "maxItems") :
    applyArrayGroup s (tmErase tags name) = applyArrayGroup s tags := by
  unfold applyArrayGroup
  rw [parseIntTag_tmErase_ne _ _ _ (Ne.symm h1), parseIntTag_tmErase_ne _ _ _ (Ne.symm h2)]

theorem applyDefault_tmErase (jp : String → Option JVal) (s : SObj) (tags : TagMap)
    (name : String) (h : name ≠ "default") :
    applyDefault jp s (tmErase tags name) = applyDefault jp s tags := by
  unfold applyDefault
  rw [tmGet_tmErase_ne _ _ _ (Ne.symm h)]

theorem applyUnknown_tmErase_known (jp : String → Option JVal) (s : SObj) (tags : TagMap)
    (name : String) (h : name ∈ knownTags) :
    applyUnknown jp s (tmErase tags name) = applyUnknown jp s tags := by
  induction tags generalizing s with
  | nil => rfl
  | cons p rest ih =>
    by_cases hp : p.1 = name
    · rw [tmErase_cons_drop p rest name hp, ih]
      unfold applyUnknown
      rw [List.foldl_cons, if_pos (hp ▸ h)]
    · rw [tmErase_cons_keep p rest name hp]
      unfold applyUnknown
      rw [List.foldl_cons, List.foldl_cons]
      by_cases hkn : p.1 ∈ knownTags
      · rw [if_pos hkn]
        exact ih s
      · rw [if_neg hkn]
        exact ih (setKey s ("x-" ++ p.1) (jsonOrRaw jp p.2))

/-! ## Claim C2 -/

/-- C2: tag application is gated by the node's `type`: a `minimum` tag on a
string-typed node has no effect (the result equals the result with the tag
erased from the tag set), a `minLength` tag on a number-typed node has no
effect, and likewise an array-group tag (`minItems`) on a string-typed node
has no effect. -/
theorem claim2_tag_groups_gated_by_type (jp : String → Option JVal) (s : SObj)
    (tags : TagMap) (d : Option String) :
    (getKey s "type" = some (.str "string") →
      applyJSDocTags jp s tags d = applyJSDocTags jp s (tmErase tags "minimum") d) ∧
    (getKey s "type" = some (.str "number") →
      applyJSDocTags jp s tags d = applyJSDocTags jp s (tmErase tags "minLength") d) ∧
    (getKey s "type" = some (.str "string") →
      applyJSDocTags jp s tags d = applyJSDocTags jp s (tmErase tags "minItems") d) := by
  refine ⟨fun h => ?_, fun h => ?_, fun h => ?_⟩
  · unfold applyJSDocTags
    have hty : ∀ t, typeIs (applyDescription s d) t = decide ("string" = t) := fun t => by
      rw [typeIs_applyDescription, typeIs_eq_of_getKey s "string" t h]
    rw [applyNumberGroup_id_of_gate_false _ tags (by rw [hty]; rfl) (by rw [hty]; rfl),
      applyNumberGroup_id_of_gate_false _ (tmErase tags "minimum")
        (by rw [hty]; rfl) (by rw [hty]; rfl),
      applyStringGroup_tmErase _ tags "minimum" (by decide) (by decide) (by decide) (by decide),
      applyArrayGroup_tmErase _ tags "minimum" (by decide) (by decide),
      applyDefault_tmErase jp _ tags "minimum" (by decide),
      applyUnknown_tmErase_known jp _ tags "minimum" (by decide)]
  · unfold applyJSDocTags
    have hty : ∀ t, typeIs (applyDescription s d) t = decide ("number" = t) := fun t => by
      rw [typeIs_applyDescription, typeIs_eq_of_getKey s "number" t h]
    rw [applyNumberGroup_tmErase _ tags "minLength"
        (by decide) (by decide) (by decide) (by decide)]
    have hs2 : typeIs (applyNumberGroup (applyDescription s d) tags) "string" = false :=
      typeIs_applyNumberGroup_false _ tags "string" (by decide) (by rw [hty]; rfl)
    have ha2 : typeIs (applyNumberGroup (applyDescription s d) tags) "array" = false :=
      typeIs_applyNumberGroup_false _ tags "array" (by decide) (by rw [hty]; rfl)
    rw [applyStringGroup_id_of_gate_false _ tags hs2,
      applyStringGroup_id_of_gate_false _ (tmErase tags "minLength") hs2,
      applyArrayGroup_id_of_gate_false _ tags ha2,
      applyArrayGroup_id_of_gate_false _ (tmErase tags "minLength") ha2,
      applyDefault_tmErase jp _ tags "minLength" (by decide),
      applyUnknown_tmErase_known jp _ tags "minLength" (by decide)]
  · unfold applyJSDocTags
    have hty : ∀ t, typeIs (applyDescription s d) t = decide ("string" = t) := fun t => by
      rw [typeIs_applyDescription, typeIs_eq_of_getKey s "string" t h]
    rw [applyNumberGroup_id_of_gate_false _ tags (by rw [hty]; rfl) (by rw [hty]; rfl),
      applyNumberGroup_id_of_gate_false _ (tmErase tags "minItems")
        (by rw [hty]; rfl) (by rw [hty]; rfl),
      applyStringGroup_tmErase _ tags "minItems" (by decide) (by decide) (by decide) (by decide)]
    have ha2 : typeIs (applyStringGroup (applyDescription s d) tags) "array" = false := by
      rw [typeIs_applyStringGroup, hty]
      rfl
    rw [applyArrayGroup_id_of_gate_false _ tags ha2,
      applyArrayGroup_id_of_gate_false _ (tmErase tags "minItems") ha2,
      applyDefault_tmErase jp _ tags "minItems" (by decide),
      applyUnknown_tmErase_known jp _ tags "minItems" (by decide)]

/-- Witness for C2 at concrete inputs: a bare string node with a `minimum`
tag, a bare number node with a `minLength` tag, and a bare string node with
a `minItems` tag. -/
theorem claim2_tag_groups_gated_by_type_witness :
    (applyJSDocTags (fun _ => none) [("type", .str "string")] [("minimum", "10")] none
      = applyJSDocTags (fun _ => none) [("type", .str "string")]
          (tmErase [("minimum", "10")] "minimum") none) ∧
    (applyJSDocTags (fun _ => none) [("type", .str "number")] [("minLength", "5")] none
      = applyJSDocTags (fun _ => none) [("type", .str "number")]
          (tmErase [("minLength", "5")] "minLength") none) ∧
    (applyJSDocTags (fun _ => none) [("type", .str "string")] [("minItems", "2")] none
      = applyJSDocTags (fun _ => none) [("type", .str "string")]
          (tmErase [("minItems", "2")] "minItems") none) :=
  ⟨(claim2_tag_groups_gated_by_type (fun _ => none) [("type", .str "string")]
      [("minimum", "10")] none).1 rfl,
   (claim2_tag_groups_gated_by_type (fun _ => none) [("type", .str "number")]
      [("minLength", "5")] none).2.1 rfl,
   (claim2_tag_groups_gated_by_type (fun _ => none) [("type", .str "string")]
      [("minItems", "2")] none).2.2 rfl⟩

/-! ## Claim C6 -/

theorem applyNumberGroup_nil (s : SObj) : applyNumberGroup s [] = s := by
  unfold applyNumberGroup
  split <;> rfl

theorem applyStringGroup_nil (s : SObj) : applyStringGroup s [] = s := by
  unfold applyStringGroup
  split <;> rfl

theorem applyArrayGroup_nil (s : SObj) : applyArrayGroup s [] = s := by
  unfold applyArrayGroup
  split <;> rfl

/-- A node with no tags and no description is returned unchanged by the
constraint applicator. -/
theorem applyJSDocTags_nil (jp : String → Option JVal) (s : SObj) :
    applyJSDocTags jp s [] none = s := by
  unfold applyJSDocTags
  rw [applyNumberGroup_nil, applyStringGroup_nil, applyArrayGroup_nil]
  rfl

/-- C6: for each primitive category P ∈ {string, number, boolean, null},
compiling a bare type of that category — no tags, no description, and the
earlier classification flags unset — yields exactly the node `{type: P}`
with no other keys. -/
theorem claim6_bare_primitives (jp : String → Option JVal) (t : Ty)
    (htags : t.tags = []) (hd : t.descr = none) :
    (t.fl.fString = true → compile jp t = .ok [("type", .str "string")]) ∧
    (t.fl.fString = false → t.fl.fStringLit = false → t.fl.fNumber = true →
      compile jp t = .ok [("type", .str "number")]) ∧
    (t.fl.fString = false → t.fl.fStringLit = false → t.fl.fNumber = false →
      t.fl.fNumberLit = false → t.fl.fBoolean = true →
      compile jp t = .ok [("type", .str "boolean")]) ∧
    (t.fl.fString = false → t.fl.fStringLit = false → t.fl.fNumber = false →
      t.fl.fNumberLit = false → t.fl.fBoolean = false → t.fl.fBoolLit = false →
      t.fl.fNull = true →
      compile jp t = .ok [("type", .str "null")]) := by
  cases t with
  | mk fl sv nv ts un ia ta it ii pr tg de =>
    simp only [Ty.tags] at htags
    simp only [Ty.descr] at hd
    subst htags hd
    simp only [Ty.fl]
    refine ⟨fun h1 => ?_, fun h1 h2 h3 => ?_, fun h1 h2 h3 h4 h5 => ?_,
      fun h1 h2 h3 h4 h5 h6 h7 => ?_⟩ <;>
      (unfold compile; simp [*, applyJSDocTags_nil, setKey])

/-- Witness for C6: the four bare primitive descriptors. -/
theorem claim6_bare_primitives_witness :
    (compile (fun _ => none)
        (.mk { fString := true } "" 0 "" none false none false false [] [] none)
      = .ok [("type", .str "string")]) ∧
    (compile (fun _ => none)
        (.mk { fNumber := true } "" 0 "" none false none false false [] [] none)
      = .ok [("type", .str "number")]) ∧
    (compile (fun _ => none)
        (.mk { fBoolean := true } "" 0 "" none false none false false [] [] none)
      = .ok [("type", .str "boolean")]) ∧
    (compile (fun _ => none)
        (.mk { fNull := true } "" 0 "" none false none false false [] [] none)
      = .ok [("type", .str "null")]) :=
  ⟨(claim6_bare_primitives (fun _ => none)
      (.mk { fString := true } "" 0 "" none false none false false [] [] none) rfl rfl).1 rfl,
   (claim6_bare_primitives (fun _ => none)
      (.mk { fNumber := true } "" 0 "" none false none false false [] [] none)
      rfl rfl).2.1 rfl rfl rfl,
   (claim6_bare_primitives (fun _ => none)
      (.mk { fBoolean := true } "" 0 "" none false none false false [] [] none)
      rfl rfl).2.2.1 rfl rfl rfl rfl rfl,
   (claim6_bare_primitives (fun _ => none)
      (.mk { fNull := true } "" 0 "" none false none false false [] [] none)
      rfl rfl).2.2.2 rfl rfl rfl rfl rfl rfl rfl⟩

/-! ## Claim C3 -/

/-- C3 counterexample: compiling a tuple type whose host-rendered name is
`[string, number]` fails with the fixed message `Tuple types are not
supported.`, which does not contain the rendered type name — refuting the
claim that all four `UnsupportedType` cases carry the type name. -/
theorem claim3_counterexample :
    compile (fun _ => none)
        (.mk {} "" 0 "[string, number]" none false none true false [] [] none)
      = .error "Tuple types are not supported." ∧
    ¬ ("[string, number]".data <:+: "Tuple types are not supported.".data) := by
  constructor
  · rfl
  · decide

/-- C3 (amended): when `compile` fails with `UnsupportedType`, only the
"none of the above" case carries the host-rendered type name in its message;
the complex-union, tuple and intersection cases fail with fixed messages
independent of the type. -/
theorem claim3_unsupported_messages (jp : String → Option JVal) (t : Ty)
    (h1 : t.fl.fString = false) (h2 : t.fl.fStringLit = false)
    (h3 : t.fl.fNumber = false) (h4 : t.fl.fNumberLit = false)
    (h5 : t.fl.fBoolean = false) (h6 : t.fl.fBoolLit = false)
    (h7 : t.fl.fNull = false) (h8 : t.fl.fUndefined = false)
    (h9 : t.fl.fEnumLike = false) :
    (∀ ms, t.union = some ms → unionLitVals ms = none →
      compile jp t =
        .error "Complex union types are not supported. Only literal type unions (enums) are supported.") ∧
    (t.union = none → t.isArr = false → t.isTup = true →
      compile jp t = .error "Tuple types are not supported.") ∧
    (t.union = none → t.isArr = false → t.isTup = false → t.fl.fObject = false →
      t.isInter = true →
      compile jp t = .error "Intersection types are not supported.") ∧
    (t.union = none → t.isArr = false → t.isTup = false → t.fl.fObject = false →
      t.isInter = false →
      compile jp t = .error ("Unsupported type: " ++ t.typeStr) ∧
        t.typeStr.data <:+: ("Unsupported type: " ++ t.typeStr).data) := by
  cases t with
  | mk fl sv nv ts un ia ta it ii pr tg de =>
    simp only [Ty.fl] at h1 h2 h3 h4 h5 h6 h7 h8 h9
    simp only [Ty.union, Ty.isArr, Ty.isTup, Ty.isInter, Ty.typeStr, Ty.fl]
    refine ⟨fun ms hu hlit => ?_, fun hu ha htup => ?_,
      fun hu ha htup hobj hint => ?_, fun hu ha htup hobj hint => ?_⟩
    · subst hu
      unfold compile
      simp [enumBranchVals_false, enumBranchVals_none, *]
    · subst hu
      unfold compile
      simp [enumBranchVals_false, enumBranchVals_none, *]
    · subst hu
      unfold compile
      simp [enumBranchVals_false, enumBranchVals_none, *]
    · subst hu
      constructor
      · unfold compile
        simp [enumBranchVals_false, enumBranchVals_none, *]
      · exact ⟨"Unsupported type: ".data, [], by simp⟩

/-- Witness for C3 (amended) at concrete descriptors: a union with a
non-literal member, a tuple, an intersection, and an unclassifiable type. -/
theorem claim3_unsupported_messages_witness :
    (compile (fun _ => none)
        (.mk {} "" 0 "string | T[]"
          (some [.mk {} "" 0 "T[]" none true none false false [] [] none])
          false none false false [] [] none)
      = .error "Complex union types are not supported. Only literal type unions (enums) are supported.") ∧
    (compile (fun _ => none)
        (.mk {} "" 0 "[string, number]" none false none true false [] [] none)
      = .error "Tuple types are not supported.") ∧
    (compile (fun _ => none)
        (.mk {} "" 0 "A & B" none false none false true [] [] none)
      = .error "Intersection types are not supported.") ∧
    (compile (fun _ => none)
        (.mk {} "" 0 "unknown" none false none false false [] [] none)
      = .error "Unsupported type: unknown" ∧
      "unknown".data <:+: "Unsupported type: unknown".data) :=
  ⟨(claim3_unsupported_messages (fun _ => none)
      (.mk {} "" 0 "string | T[]"
        (some [.mk {} "" 0 "T[]" none true none false false [] [] none])
        false none false false [] [] none)
      rfl rfl rfl rfl rfl rfl rfl rfl rfl).1 _ rfl rfl,
   (claim3_unsupported_messages (fun _ => none)
      (.mk {} "" 0 "[string, number]" none false none true false [] [] none)
      rfl rfl rfl rfl rfl rfl rfl rfl rfl).2.1 rfl rfl rfl,
   (claim3_unsupported_messages (fun _ => none)
      (.mk {} "" 0 "A & B" none false none false true [] [] none)
      rfl rfl rfl rfl rfl rfl rfl rfl rfl).2.2.1 rfl rfl rfl rfl rfl,
   (claim3_unsupported_messages (fun _ => none)
      (.mk {} "" 0 "unknown" none false none false false [] [] none)
      rfl rfl rfl rfl rfl rfl rfl rfl rfl).2.2.2 rfl rfl rfl rfl rfl⟩

/-! ## Claims C5 and C7 -/

/-- On a node that is neither number- nor integer-typed, the whole constraint
applicator leaves the `type` key untouched. -/
theorem getKey_applyJSDocTags_type (jp : String → Option JVal) (s : SObj) (tags : TagMap)
    (d : Option String) (hn : typeIs s "number" = false) (hi : typeIs s "integer" = false) :
    getKey (applyJSDocTags jp s tags d) "type" = getKey s "type" := by
  unfold applyJSDocTags
  rw [getKey_applyUnknown_ne _ _ _ _ (fun n => xkey_ne n "type" (by decide)),
    getKey_applyDefault_ne _ _ _ _ (by decide),
    getKey_applyArrayGroup_ne _ _ _ (by decide) (by decide),
    getKey_applyStringGroup_ne _ _ _ (by decide) (by decide) (by decide) (by decide),
    applyNumberGroup_id_of_gate_false _ tags
      (by rw [typeIs_applyDescription]; exact hn)
      (by rw [typeIs_applyDescription]; exact hi),
    getKey_applyDescription_ne _ _ _ (by decide)]

/-- How the union branch renders one literal member: string value, else
number value, else the type-text comparison with `"true"`. -/
def litRender (m : Ty) : JVal :=
  if m.fl.fStringLit then .str m.strVal
  else if m.fl.fNumberLit then .num m.numVal
  else .jbool (m.typeStr = "true")

theorem unionLitVals_eq_map (ms : List Ty)
    (h : ∀ m ∈ ms, m.fl.fStringLit = true ∨ m.fl.fNumberLit = true ∨ m.fl.fBoolLit = true) :
    unionLitVals ms = some (ms.map litRender) := by
  induction ms with
  | nil => rfl
  | cons m rest ih =>
    have hm := h m (List.mem_cons_self m rest)
    have hrest := ih (fun x hx => h x (List.mem_cons_of_mem m hx))
    by_cases hs : m.fl.fStringLit = true
    · have hr : litRender m = .str m.strVal := by unfold litRender; simp [hs]
      simp [unionLitVals, hs, hrest, hr]
    · by_cases hn : m.fl.fNumberLit = true
      · have hr : litRender m = .num m.numVal := by unfold litRender; simp [hs, hn]
        simp [unionLitVals, hs, hn, hrest, hr]
      · have hb : m.fl.fBoolLit = true := by
          rcases hm with h' | h' | h'
          · exact absurd h' hs
          · exact absurd h' hn
          · exact h'
        have hr : litRender m = .jbool (m.typeStr = "true") := by
          unfold litRender
          simp [hs, hn]
        simp [unionLitVals, hs, hn, hb, hrest, hr]

theorem unionLitVals_none_of_mem (ms : List Ty) (m : Ty) (hm : m ∈ ms)
    (hs : m.fl.fStringLit = false) (hn : m.fl.fNumberLit = false)
    (hb : m.fl.fBoolLit = false) : unionLitVals ms = none := by
  induction ms with
  | nil => cases hm
  | cons x rest ih =>
    rcases List.mem_cons.1 hm with h | h
    · subst h
      unfold unionLitVals
      simp [hs, hn, hb]
    · unfold unionLitVals
      by_cases hxs : x.fl.fStringLit = true
      · simp [hxs, ih h]
      · by_cases hxn : x.fl.fNumberLit = true
        · simp [hxs, hxn, ih h]
        · by_cases hxb : x.fl.fBoolLit = true
          · simp [hxs, hxn, hxb, ih h]
          · simp [hxs, hxn, hxb]

/-- C5: for a union reached by the union rule (earlier flags unset), if every
member is a string/number/boolean literal the result is a node whose `enum`
is the members' rendered literal values in declared order and which has no
`type` key; if some member is none of the three literal kinds, compilation
fails with the complex-union `UnsupportedType` error. -/
theorem claim5_literal_unions (jp : String → Option JVal) (t : Ty) (ms : List Ty)
    (h1 : t.fl.fString = false) (h2 : t.fl.fStringLit = false)
    (h3 : t.fl.fNumber = false) (h4 : t.fl.fNumberLit = false)
    (h5 : t.fl.fBoolean = false) (h6 : t.fl.fBoolLit = false)
    (h7 : t.fl.fNull = false) (h8 : t.fl.fUndefined = false)
    (h9 : t.fl.fEnumLike = false) (hu : t.union = some ms) :
    (ms ≠ [] →
      (∀ m ∈ ms, m.fl.fStringLit = true ∨ m.fl.fNumberLit = true ∨ m.fl.fBoolLit = true) →
      ∃ s, compile jp t = .ok s ∧
        getKey s "enum" = some (.arr (ms.map litRender)) ∧
        getKey s "type" = none) ∧
    ((∃ m ∈ ms, m.fl.fStringLit = false ∧ m.fl.fNumberLit = false ∧ m.fl.fBoolLit = false) →
      compile jp t =
        .error "Complex union types are not supported. Only literal type unions (enums) are supported.") := by
  cases t with
  | mk fl sv nv ts un ia ta it ii pr tg de =>
    simp only [Ty.fl] at h1 h2 h3 h4 h5 h6 h7 h8 h9
    simp only [Ty.union] at hu
    subst hu
    constructor
    · intro hne hlit
      have hla := unionLitVals_eq_map ms hlit
      have hvne : (ms.map litRender).isEmpty = false := by
        cases ms with
        | nil => exact absurd rfl hne
        | cons a l => rfl
      refine ⟨applyJSDocTags jp (setKey [] "enum" (.arr (ms.map litRender))) tg de, ?_, ?_, ?_⟩
      · unfold compile
        simp [enumBranchVals_false, enumBranchVals_none, *]
      · rw [getKey_applyJSDocTags_ne _ _ _ _ _ (by decide) (by decide) (by decide) (by decide)
          (by decide) (by decide) (by decide) (by decide) (by decide) (by decide) (by decide)
          (by decide) (fun n => xkey_ne n "enum" (by decide))]
        rfl
      · rw [getKey_applyJSDocTags_type _ _ _ _ (by rfl) (by rfl)]
        rfl
    · rintro ⟨m, hm, hms, hmn, hmb⟩
      have hnone := unionLitVals_none_of_mem ms m hm hms hmn hmb
      unfold compile
      simp [enumBranchVals_false, enumBranchVals_none, *]

/-- Witness for C5: the union `"a" | 1 | true` compiles to
`{enum: ["a", 1, true]}`, and the union `"a" | string` fails. -/
theorem claim5_literal_unions_witness :
    (∃ s, compile (fun _ => none)
        (.mk {} "" 0 ""
          (some [.mk { fStringLit := true } "a" 0 "" none false none false false [] [] none,
                 .mk { fNumberLit := true } "" 1 "" none false none false false [] [] none,
                 .mk { fBoolLit := true } "" 0 "true" none false none false false [] [] none])
          false none false false [] [] none)
        = .ok s ∧
      getKey s "enum" = some (.arr [.str "a", .num 1, .jbool true]) ∧
      getKey s "type" = none) ∧
    compile (fun _ => none)
      (.mk {} "" 0 ""
        (some [.mk { fStringLit := true } "a" 0 "" none false none false false [] [] none,
               .mk { fString := true } "" 0 "" none false none false false [] [] none])
        false none false false [] [] none)
      = .error "Complex union types are not supported. Only literal type unions (enums) are supported." :=
  ⟨(claim5_literal_unions (fun _ => none)
      (.mk {} "" 0 ""
        (some [.mk { fStringLit := true } "a" 0 "" none false none false false [] [] none,
               .mk { fNumberLit := true } "" 1 "" none false none false false [] [] none,
               .mk { fBoolLit := true } "" 0 "true" none false none false false [] [] none])
        false none false false [] [] none)
      [.mk { fStringLit := true } "a" 0 "" none false none false false [] [] none,
       .mk { fNumberLit := true } "" 1 "" none false none false false [] [] none,
       .mk { fBoolLit := true } "" 0 "true" none false none false false [] [] none]
      rfl rfl rfl rfl rfl rfl rfl rfl rfl rfl).1
      (by simp) (by intro m hm; fin_cases hm <;> simp [Ty.fl]),
   (claim5_literal_unions (fun _ => none)
      (.mk {} "" 0 ""
        (some [.mk { fStringLit := true } "a" 0 "" none false none false false [] [] none,
               .mk { fString := true } "" 0 "" none false none false false [] [] none])
        false none false false [] [] none)
      [.mk { fStringLit := true } "a" 0 "" none false none false false [] [] none,
       .mk { fString := true } "" 0 "" none false none false false [] [] none]
      rfl rfl rfl rfl rfl rfl rfl rfl rfl rfl).2
      ⟨.mk { fString := true } "" 0 "" none false none false false [] [] none,
        by simp, rfl, rfl, rfl⟩⟩

/-- C7: for an array-like type (reached past the scalar and union rules),
the result has `type:"array"`; with a resolvable first type argument whose
compilation succeeds, `items` is exactly that recursive compilation; with no
resolvable element (`typeArguments` absent or empty), the `items` key is
omitted. -/
theorem claim7_arrays (jp : String → Option JVal) (t : Ty)
    (h1 : t.fl.fString = false) (h2 : t.fl.fStringLit = false)
    (h3 : t.fl.fNumber = false) (h4 : t.fl.fNumberLit = false)
    (h5 : t.fl.fBoolean = false) (h6 : t.fl.fBoolLit = false)
    (h7 : t.fl.fNull = false) (h8 : t.fl.fUndefined = false)
    (hu : t.union = none) (ha : t.isArr = true) :
    (∀ a rest ia, t.typeArgs = some (a :: rest) → compile jp a = .ok ia →
      ∃ s, compile jp t = .ok s ∧
        getKey s "type" = some (.str "array") ∧
        getKey s "items" = some (.obj ia)) ∧
    (t.typeArgs = none ∨ t.typeArgs = some [] →
      ∃ s, compile jp t = .ok s ∧
        getKey s "type" = some (.str "array") ∧
        getKey s "items" = none) := by
  cases t with
  | mk fl sv nv ts un ia' ta it ii pr tg de =>
    simp only [Ty.fl] at h1 h2 h3 h4 h5 h6 h7 h8
    simp only [Ty.union] at hu
    simp only [Ty.isArr] at ha
    simp only [Ty.typeArgs]
    subst hu ha
    have harr : typeIs (setKey (setKey [] "type" (.str "array")) "items" (.obj [])) "number"
        = false := rfl
    constructor
    · intro a rest ia hta hia
      subst hta
      refine ⟨applyJSDocTags jp
        (setKey (setKey [] "type" (.str "array")) "items" (.obj ia)) tg de, ?_, ?_, ?_⟩
      · unfold compile
        simp [enumBranchVals_false, enumBranchVals_none, *]
      · rw [getKey_applyJSDocTags_type _ _ _ _ ?_ ?_]
        · rfl
        · rw [typeIs_eq_of_getKey _ "array" _
            (by rw [getKey_setKey_ne _ _ _ _ (by decide), getKey_setKey_self])]
          rfl
        · rw [typeIs_eq_of_getKey _ "array" _
            (by rw [getKey_setKey_ne _ _ _ _ (by decide), getKey_setKey_self])]
          rfl
      · rw [getKey_applyJSDocTags_ne _ _ _ _ _ (by decide) (by decide) (by decide) (by decide)
          (by decide) (by decide) (by decide) (by decide) (by decide) (by decide) (by decide)
          (by decide) (fun n => xkey_ne n "items" (by decide))]
        rw [getKey_setKey_self]
    · intro hta
      refine ⟨applyJSDocTags jp (setKey [] "type" (.str "array")) tg de, ?_, ?_, ?_⟩
      · rcases hta with hta | hta <;>
          (subst hta; unfold compile; simp [enumBranchVals_false, enumBranchVals_none, *])
      · rw [getKey_applyJSDocTags_type _ _ _ _
          (by rw [typeIs_eq_of_getKey _ "array" _ (getKey_setKey_self _ _ _)]; rfl)
          (by rw [typeIs_eq_of_getKey _ "array" _ (getKey_setKey_self _ _ _)]; rfl)]
        exact getKey_setKey_self _ _ _
      · rw [getKey_applyJSDocTags_ne _ _ _ _ _ (by decide) (by decide) (by decide) (by decide)
          (by decide) (by decide) (by decide) (by decide) (by decide) (by decide) (by decide)
          (by decide) (fun n => xkey_ne n "items" (by decide))]
        rfl

/-- Witness for C7: `string[]` yields `{type:"array", items:{type:"string"}}`;
an array with unresolvable element yields `{type:"array"}` with no `items`. -/
theorem claim7_arrays_witness :
    (∃ s, compile (fun _ => none)
        (.mk {} "" 0 "" none true
          (some [.mk { fString := true } "" 0 "" none false none false false [] [] none])
          false false [] [] none)
        = .ok s ∧
      getKey s "type" = some (.str "array") ∧
      getKey s "items" = some (.obj [("type", .str "string")])) ∧
    (∃ s, compile (fun _ => none)
        (.mk {} "" 0 "" none true none false false [] [] none)
        = .ok s ∧
      getKey s "type" = some (.str "array") ∧
      getKey s "items" = none) :=
  ⟨(claim7_arrays (fun _ => none)
      (.mk {} "" 0 "" none true
        (some [.mk { fString := true } "" 0 "" none false none false false [] [] none])
        false false [] [] none)
      rfl rfl rfl rfl rfl rfl rfl rfl rfl rfl).1
      (.mk { fString := true } "" 0 "" none false none false false [] [] none)
      [] [("type", .str "string")] rfl rfl,
   (claim7_arrays (fun _ => none)
      (.mk {} "" 0 "" none true none false false [] [] none)
      rfl rfl rfl rfl rfl rfl rfl rfl rfl rfl).2 (Or.inl rfl)⟩

/-! ## Claim C1 -/

/-- C1 (evaluation of the code at the failing inputs): no branch of `compile`
inspects an `ignore` tag.  A non-optional member tagged `@ignore` does not
fail with `IgnoreConflict` — compilation succeeds, the member is listed in
`required`, and its node carries an `x-ignore` extension; an optional member
tagged `@ignore` is likewise not skipped from `properties`.  The repository's
own test suite (`src/test/index.test.ts`, "should ignore optional property
with @ignore tag" and "should throw error for required property with @ignore
tag") expects the opposite behavior. -/
theorem claim1_ignore_tag_not_implemented :
    (compile (fun _ => none)
        (.mk { fObject := true } "" 0 "" none false none false false
          [({ name := "name" }, .mk { fString := true } "" 0 "" none false none false false [] [] none),
           ({ name := "age", tags := [("ignore", "")] },
             .mk { fNumber := true } "" 0 "" none false none false false [] [] none)]
          [] none)
      = .ok [("type", .str "object"),
             ("properties", .obj [("name", .obj [("type", .str "string")]),
                                  ("age", .obj [("type", .str "number"), ("x-ignore", .str "")])]),
             ("required", .arr [.str "name", .str "age"])]) ∧
    (compile (fun _ => none)
        (.mk { fObject := true } "" 0 "" none false none false false
          [({ name := "name" }, .mk { fString := true } "" 0 "" none false none false false [] [] none),
           ({ name := "age", optionalFlag := true, tags := [("ignore", "")] },
             .mk { fNumber := true } "" 0 "" none false none false false [] [] none)]
          [] none)
      = .ok [("type", .str "object"),
             ("properties", .obj [("name", .obj [("type", .str "string")]),
                                  ("age", .obj [("type", .str "number"), ("x-ignore", .str "")])]),
             ("required", .arr [.str "name"])]) :=
  ⟨rfl, rfl⟩

/-! ## Claim C8 -/

theorem xkey_inj (a b : String) (h : ("x-" ++ a : String) = "x-" ++ b) : a = b := by
  have hd := congrArg String.data h
  rw [String.data_append, String.data_append] at hd
  have h2 : a.data = b.data := by simpa using hd
  cases a with
  | mk da =>
    cases b with
    | mk db => exact congrArg String.mk h2

/-- Entries of the unknown-tag loop whose name differs from `name` never
write the key `x-` + name. -/
theorem getKey_applyUnknown_other (jp : String → Option JVal) (s : SObj) (tags : TagMap)
    (name : String) (h : ∀ q ∈ tags, q.1 ≠ name) :
    getKey (applyUnknown jp s tags) ("x-" ++ name) = getKey s ("x-" ++ name) := by
  unfold applyUnknown
  induction tags generalizing s with
  | nil => rfl
  | cons p rest ih =>
    have hp : p.1 ≠ name := h p (List.mem_cons_self p rest)
    have hx : ("x-" ++ name : String) ≠ "x-" ++ p.1 := fun he => hp (xkey_inj name p.1 he).symm
    have hrest : ∀ q ∈ rest, q.1 ≠ name := fun q hq => h q (List.mem_cons_of_mem p hq)
    rw [List.foldl_cons]
    by_cases hkn : p.1 ∈ knownTags
    · rw [if_pos hkn]
      exact ih s hrest
    · rw [if_neg hkn]
      rw [ih (setKey s ("x-" ++ p.1) (jsonOrRaw jp p.2)) hrest]
      exact getKey_setKey_ne _ _ _ _ hx

/-- The unknown-tag loop stores each unrecognized entry of a well-formed tag
map under `x-` + name with the parse-or-raw value. -/
theorem getKey_applyUnknown_mem (jp : String → Option JVal) (s : SObj) (tags : TagMap)
    (name txt : String) (hmem : (name, txt) ∈ tags) (hunk : name ∉ knownTags)
    (hnd : (tags.map Prod.fst).Nodup) :
    getKey (applyUnknown jp s tags) ("x-" ++ name) = some (jsonOrRaw jp txt) := by
  induction tags generalizing s with
  | nil => cases hmem
  | cons p rest ih =>
    rw [List.map_cons, List.nodup_cons] at hnd
    rcases List.mem_cons.1 hmem with h | h
    · subst h
      have hrest : ∀ q ∈ rest, q.1 ≠ name := by
        intro q hq he
        have hq' : q.1 ∈ rest.map Prod.fst := List.mem_map_of_mem Prod.fst hq
        rw [he] at hq'
        exact hnd.1 hq'
      have h1 := getKey_applyUnknown_other jp
        (setKey s ("x-" ++ name) (jsonOrRaw jp txt)) rest name hrest
      have h2 := getKey_setKey_self s ("x-" ++ name) (jsonOrRaw jp txt)
      unfold applyUnknown
      rw [List.foldl_cons, if_neg hunk]
      exact h1.trans h2
    · unfold applyUnknown
      rw [List.foldl_cons]
      by_cases hkn : p.1 ∈ knownTags
      · rw [if_pos hkn]
        exact ih s h hnd.2
      · rw [if_neg hkn]
        exact ih (setKey s ("x-" ++ p.1) (jsonOrRaw jp p.2)) h hnd.2

/-- C8: on every node and (well-formed) tag map, a `default` tag is applied
regardless of the node's type, and every tag with an unrecognized name is
stored under `x-` + name; in both cases the stored value is the host JSON
parse of the tag text when it succeeds and the raw text otherwise
(`jsonOrRaw`). -/
theorem claim8_default_and_extensions (jp : String → Option JVal) (s : SObj)
    (tags : TagMap) (d : Option String) :
    (∀ txt, tmGet tags "default" = some txt →
      getKey (applyJSDocTags jp s tags d) "default" = some (jsonOrRaw jp txt)) ∧
    (∀ name txt, (name, txt) ∈ tags → name ∉ knownTags →
      (tags.map Prod.fst).Nodup →
      getKey (applyJSDocTags jp s tags d) ("x-" ++ name) = some (jsonOrRaw jp txt)) := by
  constructor
  · intro txt htxt
    unfold applyJSDocTags
    rw [getKey_applyUnknown_ne _ _ _ _ (fun n => xkey_ne n "default" (by decide))]
    unfold applyDefault
    rw [htxt]
    exact getKey_setKey_self _ _ _
  · intro name txt hmem hunk hnd
    unfold applyJSDocTags
    exact getKey_applyUnknown_mem jp _ tags name txt hmem hunk hnd

/-- Witness for C8: a `@default` tag on a boolean-typed node is stored, and
a `@customTag` is stored under `x-customTag`; values go through the
parse-or-raw fallback of the host `JSON.parse` parameter. -/
theorem claim8_default_and_extensions_witness :
    (getKey (applyJSDocTags (fun _ => none) [("type", .str "boolean")]
        [("default", "true"), ("customTag", "value")] none) "default"
      = some (jsonOrRaw (fun _ => none) "true")) ∧
    (getKey (applyJSDocTags (fun _ => none) [("type", .str "boolean")]
        [("default", "true"), ("customTag", "value")] none) "x-customTag"
      = some (jsonOrRaw (fun _ => none) "value")) :=
  ⟨(claim8_default_and_extensions (fun _ => none) [("type", .str "boolean")]
      [("default", "true"), ("customTag", "value")] none).1 "true" rfl,
   (claim8_default_and_extensions (fun _ => none) [("type", .str "boolean")]
      [("default", "true"), ("customTag", "value")] none).2 "customTag" "value"
      (by simp) (by decide) (by simp)⟩

/-! ## Claim C10 -/

theorem isWs_false_of_digit (c : Char) (h : c.isDigit = true) : isWs c = false := by
  simp [Char.isDigit] at h
  obtain ⟨h1, h2⟩ := h
  have h1' : 48 ≤ c.toNat := h1
  have h2' : c.toNat ≤ 57 := h2
  unfold isWs
  simp only [decide_eq_false_iff_not]
  intro hmem
  simp only [List.mem_cons, List.not_mem_nil, or_false] at hmem
  rcases hmem with h'|h'|h'|h'|h'|h'|h'|h'|h'|h'|h'|h'|h'|h'|h'|h'|h'|h'|h'|h'|h'|h'|h'|h'|h' <;>
    omega

theorem ne_sign_of_digit (c : Char) (h : c.isDigit = true) : c ≠ '-' ∧ c ≠ '+' := by
  constructor <;> (intro he; subst he; exact absurd h (by decide))

theorem ne_I_of_digit (c : Char) (h : c.isDigit = true) : c ≠ 'I' := by
  intro he
  subst he
  exact absurd h (by decide)

theorem skipWs_cons_not_ws (c : Char) (l : List Char) (h : isWs c = false) :
    skipWs (c :: l) = c :: l := by
  unfold skipWs
  simp [h]

theorem readSign_cons_not_sign (c : Char) (l : List Char) (h1 : c ≠ '-') (h2 : c ≠ '+') :
    readSign (c :: l) = (false, c :: l) := by
  unfold readSign
  simp [h1, h2]

theorem take8_ne_infinity (c : Char) (r : List Char) (hc : c ≠ 'I') :
    (c :: r).take 8 ≠ "Infinity".data := by
  intro heq
  rw [show ((c :: r).take 8) = c :: r.take 7 from rfl,
    show "Infinity".data = ['I', 'n', 'f', 'i', 'n', 'i', 't', 'y'] from rfl] at heq
  injection heq with h1 h2
  exact hc h1

theorem spanDigits_append (pre post : List Char)
    (hdig : ∀ c ∈ pre, c.isDigit = true)
    (hpost : post = [] ∨ ∃ c r, post = c :: r ∧ c.isDigit = false) :
    spanDigits (pre ++ post) = (pre, post) := by
  induction pre with
  | nil =>
    rcases hpost with h | ⟨c, r, hp, hc⟩
    · subst h
      rfl
    · subst hp
      unfold spanDigits
      simp [hc]
  | cons d ds ih =>
    have hd := hdig d (List.mem_cons_self d ds)
    have ih' := ih (fun c hc => hdig c (List.mem_cons_of_mem d hc))
    unfold spanDigits
    simp [hd, ih']

/-- C10: the numeric tag parsers take the value of the longest leading
numeric prefix of the tag text.  Text made of a nonempty digit prefix
followed by characters that do not extend the number (for example `10px`)
is accepted by both `parseFloatTag` and `parseIntTag` as the prefix's host
number value (the prefix's exact value rounded to the nearest binary64);
text whose first character can begin no numeric prefix — not a digit, not
whitespace, not a sign, not a decimal point, and not the `I` of the
`Infinity` keyword — is dropped. -/
theorem claim10_numeric_prefix (pre post : List Char) (hne : pre ≠ [])
    (hdig : ∀ c ∈ pre, c.isDigit = true)
    (hpost : post = [] ∨
      ∃ c r, post = c :: r ∧ c.isDigit = false ∧ c ≠ '.' ∧ c ≠ 'e' ∧ c ≠ 'E') :
    (jsParseFloat (String.mk (pre ++ post)) = some (roundToDouble (digitsToNat pre : ℚ)) ∧
     jsParseInt (String.mk (pre ++ post)) = some (roundToDouble (digitsToNat pre : ℚ))) ∧
    (∀ tags name, tmGet tags name = some (String.mk (pre ++ post)) →
      parseFloatTag tags name = some (roundToDouble (digitsToNat pre : ℚ)) ∧
      parseIntTag tags name = some (roundToDouble (digitsToNat pre : ℚ))) ∧
    (∀ (c : Char) (rest : List Char), c.isDigit = false →
      isWs c = false → c ≠ '+' → c ≠ '-' → c ≠ '.' → c ≠ 'I' →
      jsParseFloat (String.mk (c :: rest)) = none ∧
      jsParseInt (String.mk (c :: rest)) = none) := by
  have hmain : jsParseFloat (String.mk (pre ++ post))
        = some (roundToDouble (digitsToNat pre : ℚ)) ∧
      jsParseInt (String.mk (pre ++ post))
        = some (roundToDouble (digitsToNat pre : ℚ)) := by
    obtain ⟨d, ds, hpre⟩ : ∃ d ds, pre = d :: ds := by
      cases pre with
      | nil => exact absurd rfl hne
      | cons d ds => exact ⟨d, ds, rfl⟩
    have hd : d.isDigit = true := by
      rw [hpre] at hdig
      exact hdig d (List.mem_cons_self d ds)
    have hskip : skipWs (pre ++ post) = pre ++ post := by
      rw [hpre]
      exact skipWs_cons_not_ws d (ds ++ post) (isWs_false_of_digit d hd)
    have hsign : readSign (pre ++ post) = (false, pre ++ post) := by
      rw [hpre]
      exact readSign_cons_not_sign d (ds ++ post)
        (ne_sign_of_digit d hd).1 (ne_sign_of_digit d hd).2
    have hInf : (pre ++ post).take 8 ≠ "Infinity".data := by
      rw [hpre]
      exact take8_ne_infinity d (ds ++ post) (ne_I_of_digit d hd)
    have hspan : spanDigits (pre ++ post) = (pre, post) :=
      spanDigits_append pre post hdig
        (by
          rcases hpost with h | ⟨c, r, hp, hc, _⟩
          · exact Or.inl h
          · exact Or.inr ⟨c, r, hp, hc⟩)
    have hfrac : fracPart post = ([], post) := by
      rcases hpost with h | ⟨c, r, hp, hc, hdot, _, _⟩
      · subst h
        rfl
      · subst hp
        unfold fracPart
        split
        · rename_i rest heq
          injection heq with hh ht
          exact absurd hh hdot
        · rfl
    have hexp : expPart post = (false, []) := by
      rcases hpost with h | ⟨c, r, hp, hc, hdot, he, hE⟩
      · subst h
        rfl
      · subst hp
        unfold expPart
        simp [he, hE]
    constructor
    · unfold jsParseFloat
      rw [hskip]
      simp only [hsign]
      rw [if_neg hInf]
      simp only [hspan, hfrac, hexp]
      simp [hne, digitsToNat]
    · unfold jsParseInt
      rw [hskip]
      simp only [hsign, hspan]
      simp [hne]
  refine ⟨hmain, fun tags name htxt => ?_, fun c rest hc hw hplus hminus hdot hI => ?_⟩
  · constructor
    · unfold parseFloatTag
      rw [htxt]
      exact hmain.1
    · unfold parseIntTag
      rw [htxt]
      exact hmain.2
  · have hskip : skipWs (c :: rest) = c :: rest := skipWs_cons_not_ws c rest hw
    have hsign : readSign (c :: rest) = (false, c :: rest) :=
      readSign_cons_not_sign c rest hminus hplus
    have hInf : (c :: rest).take 8 ≠ "Infinity".data := take8_ne_infinity c rest hI
    have hspan : spanDigits (c :: rest) = ([], c :: rest) := by
      unfold spanDigits
      simp [hc]
    have hfrac : fracPart (c :: rest) = ([], c :: rest) := by
      unfold fracPart
      split
      · rename_i rest' heq
        injection heq with hh ht
        exact absurd hh hdot
      · rfl
    constructor
    · unfold jsParseFloat
      rw [hskip]
      simp only [hsign]
      rw [if_neg hInf]
      simp [hspan, hfrac]
    · unfold jsParseInt
      rw [hskip]
      simp [hsign, hspan]

/-- Witness for C10: the tag text `10px` parses to the number 10 for both
parsers, also through `parseFloatTag`/`parseIntTag`, and the tag text `px`
is dropped. -/
theorem claim10_numeric_prefix_witness :
    (jsParseFloat (String.mk ['1', '0', 'p', 'x']) = some (.finite 10) ∧
     jsParseInt (String.mk ['1', '0', 'p', 'x']) = some (.finite 10)) ∧
    (parseFloatTag [("minimum", String.mk ['1', '0', 'p', 'x'])] "minimum"
        = some (.finite 10) ∧
     parseIntTag [("minimum", String.mk ['1', '0', 'p', 'x'])] "minimum"
        = some (.finite 10)) ∧
    (jsParseFloat (String.mk ['p', 'x']) = none ∧
     jsParseInt (String.mk ['p', 'x']) = none) := by
  have h := claim10_numeric_prefix ['1', '0'] ['p', 'x'] (by decide) (by decide)
    (Or.inr ⟨'p', ['x'], rfl, by decide, by decide, by decide, by decide⟩)
  have hv : roundToDouble ((digitsToNat ['1', '0'] : ℚ)) = .finite 10 := by decide
  refine ⟨⟨?_, ?_⟩, ⟨?_, ?_⟩,
    h.2.2 'p' ['x'] (by decide) (by decide) (by decide) (by decide) (by decide) (by decide)⟩
  · exact h.1.1.trans (by rw [hv])
  · exact h.1.2.trans (by rw [hv])
  · exact (h.2.1 [("minimum", String.mk ['1', '0', 'p', 'x'])] "minimum" rfl).1.trans
      (by rw [hv])
  · exact (h.2.1 [("minimum", String.mk ['1', '0', 'p', 'x'])] "minimum" rfl).2.trans
      (by rw [hv])

/-! ## Claim C4 -/

theorem any_keys (o : SObj) (k : String) :
    o.any (fun p => p.1 = k) = true ↔ k ∈ o.map Prod.fst := by
  simp only [List.any_eq_true, decide_eq_true_eq, List.mem_map]

theorem setKey_fresh (o : SObj) (k : String) (v : JVal) (h : k ∉ o.map Prod.fst) :
    setKey o k v = o ++ [(k, v)] := by
  unfold setKey
  rw [if_neg (fun hc => h ((any_keys o k).mp hc))]

theorem map_fst_setKey_fresh (o : SObj) (k : String) (v : JVal)
    (h : k ∉ o.map Prod.fst) :
    (setKey o k v).map Prod.fst = o.map Prod.fst ++ [k] := by
  rw [setKey_fresh o k v h]
  simp

/-- What the object-member loop produces on a well-formed member list:
the keys of the accumulated `properties` object are the member names in
declaration order, and the accumulated `required` list is the names of the
members whose optionality test is false, in declaration order. -/
theorem compileProps_spec (jp : String → Option JVal) :
    ∀ (l : List (PropMeta × Ty)) (acc : SObj) (req : List String) (po : SObj)
      (rq : List String),
      compileProps jp l acc req = .ok (po, rq) →
      (∀ p ∈ l, p.1.name ∉ acc.map Prod.fst) →
      (l.map (fun p => p.1.name)).Nodup →
      po.map Prod.fst = acc.map Prod.fst ++ l.map (fun p => p.1.name) ∧
      rq = req ++ (l.filter (fun p => !(isOptionalProp p.1 p.2))).map (fun p => p.1.name) := by
  intro l
  induction l with
  | nil =>
    intro acc req po rq h hfresh hnd
    unfold compileProps at h
    injection h with h
    injection h with h1 h2
    subst h1 h2
    simp
  | cons hd rest ih =>
    obtain ⟨pm, pt⟩ := hd
    intro acc req po rq h hfresh hnd
    rw [List.map_cons, List.nodup_cons] at hnd
    unfold compileProps at h
    cases hc : compile jp pt with
    | error e =>
      rw [hc] at h
      cases h
    | ok child =>
      rw [hc] at h
      have hfreshname : pm.name ∉ acc.map Prod.fst :=
        hfresh (pm, pt) (List.mem_cons_self _ _)
      have hfresh' : ∀ p ∈ rest,
          p.1.name ∉ (setKey acc pm.name
            (.obj (applyJSDocTags jp child pm.tags pm.descr))).map Prod.fst := by
        intro p hp
        rw [map_fst_setKey_fresh acc pm.name _ hfreshname]
        intro hmem
        rcases List.mem_append.1 hmem with hmem | hmem
        · exact hfresh p (List.mem_cons_of_mem _ hp) hmem
        · rcases List.mem_singleton.1 hmem with he
          exact hnd.1 (he ▸ List.mem_map_of_mem (fun p => p.1.name) hp)
      have := ih (setKey acc pm.name (.obj (applyJSDocTags jp child pm.tags pm.descr)))
        (if isOptionalProp pm pt then req else req ++ [pm.name]) po rq h hfresh' hnd.2
      refine ⟨?_, ?_⟩
      · rw [this.1, map_fst_setKey_fresh acc pm.name _ hfreshname, List.map_cons]
        simp
      · rw [this.2, List.filter_cons]
        by_cases hopt : isOptionalProp pm pt = true
        · simp [hopt]
        · rw [Bool.not_eq_true] at hopt
          simp [hopt]

/-- C4: a struct/object type with pairwise-distinct member names that
compiles successfully yields a node with `type:"object"`, a `properties`
object keyed by every member name in declaration order, a `required` list
equal to the names of the members whose optionality test
(declared-optional flag OR own type has the `undefined` flag OR is a union
with an `undefined`-flagged member, i.e. `isOptionalProp`) is false, in
declaration order — and the `required` key is entirely absent when that
list is empty. -/
theorem claim4_objects (jp : String → Option JVal) (t : Ty)
    (h1 : t.fl.fString = false) (h2 : t.fl.fStringLit = false)
    (h3 : t.fl.fNumber = false) (h4 : t.fl.fNumberLit = false)
    (h5 : t.fl.fBoolean = false) (h6 : t.fl.fBoolLit = false)
    (h7 : t.fl.fNull = false) (h8 : t.fl.fUndefined = false)
    (hu : t.union = none) (ha : t.isArr = false) (htup : t.isTup = false)
    (hobj : t.fl.fObject = true)
    (hnd : (t.props.map (fun p => p.1.name)).Nodup) :
    ∀ s, compile jp t = .ok s →
      getKey s "type" = some (.str "object") ∧
      (∃ props, getKey s "properties" = some (.obj props) ∧
        props.map Prod.fst = t.props.map (fun p => p.1.name)) ∧
      (((t.props.filter (fun p => !(isOptionalProp p.1 p.2))).map (fun p => p.1.name)) ≠ [] →
        getKey s "required" = some (.arr
          (((t.props.filter (fun p => !(isOptionalProp p.1 p.2))).map
            (fun p => p.1.name)).map .str))) ∧
      (((t.props.filter (fun p => !(isOptionalProp p.1 p.2))).map (fun p => p.1.name)) = [] →
        getKey s "required" = none) := by
  cases t with
  | mk fl sv nv ts un ia ta it ii pr tg de =>
    simp only [Ty.fl] at h1 h2 h3 h4 h5 h6 h7 h8 hobj
    simp only [Ty.union] at hu
    simp only [Ty.isArr] at ha
    simp only [Ty.isTup] at htup
    simp only [Ty.props] at hnd ⊢
    subst hu ha htup
    intro s h
    unfold compile at h
    rw [h1, h2, h3, h4, h5, h6, h7, h8] at h
    simp only [Bool.false_eq_true, if_false] at h
    rw [hobj] at h
    simp only [if_true] at h
    rw [enumBranchVals_none] at h
    rw [if_neg (by decide : ¬(List.isEmpty ([] : List JVal) = false))] at h
    cases hcp : compileProps jp pr [] [] with
    | error e =>
      rw [hcp] at h
      cases h
    | ok por =>
      obtain ⟨po, rq⟩ := por
      rw [hcp] at h
      have hsp := compileProps_spec jp pr [] [] po rq hcp (by simp) hnd
      have hkeys : po.map Prod.fst = pr.map (fun p => p.1.name) := by
        simpa using hsp.1
      have hrq : rq = (pr.filter (fun p => !(isOptionalProp p.1 p.2))).map
          (fun p => p.1.name) := by
        simpa using hsp.2
      injection h with h
      subst h
      set base2 : SObj := setKey (setKey (setKey [] "type" (.str "object"))
        "properties" (.obj [])) "properties" (.obj po) with hbase2
      have hb2type : getKey base2 "type" = some (.str "object") := by
        rw [hbase2, getKey_setKey_ne _ _ _ _ (by decide),
          getKey_setKey_ne _ _ _ _ (by decide), getKey_setKey_self]
      have hb2props : getKey base2 "properties" = some (.obj po) :=
        getKey_setKey_self _ _ _
      have hb2req : getKey base2 "required" = none := by
        rw [hbase2, getKey_setKey_ne _ _ _ _ (by decide),
          getKey_setKey_ne _ _ _ _ (by decide), getKey_setKey_ne _ _ _ _ (by decide)]
        rfl
      by_cases hrqe : rq = []
      · rw [if_neg (by simp [hrqe])]
        refine ⟨?_, ⟨po, ?_, hkeys⟩, ?_, ?_⟩
        · rw [getKey_applyJSDocTags_type _ _ _ _
            (by rw [typeIs_eq_of_getKey _ "object" _ hb2type]; rfl)
            (by rw [typeIs_eq_of_getKey _ "object" _ hb2type]; rfl)]
          exact hb2type
        · rw [getKey_applyJSDocTags_ne _ _ _ _ _ (by decide) (by decide) (by decide)
            (by decide) (by decide) (by decide) (by decide) (by decide) (by decide)
            (by decide) (by decide) (by decide)
            (fun n => xkey_ne n "properties" (by decide))]
          exact hb2props
        · intro hne
          exact absurd (hrq ▸ hrqe) hne
        · intro _
          rw [getKey_applyJSDocTags_ne _ _ _ _ _ (by decide) (by decide) (by decide)
            (by decide) (by decide) (by decide) (by decide) (by decide) (by decide)
            (by decide) (by decide) (by decide)
            (fun n => xkey_ne n "required" (by decide))]
          exact hb2req
      · rw [if_pos (by simp [hrqe])]
        have hb3type : getKey (setKey base2 "required" (.arr (rq.map .str))) "type"
            = some (.str "object") := by
          rw [getKey_setKey_ne _ _ _ _ (by decide)]
          exact hb2type
        refine ⟨?_, ⟨po, ?_, hkeys⟩, ?_, ?_⟩
        · rw [getKey_applyJSDocTags_type _ _ _ _
            (by rw [typeIs_eq_of_getKey _ "object" _ hb3type]; rfl)
            (by rw [typeIs_eq_of_getKey _ "object" _ hb3type]; rfl)]
          exact hb3type
        · rw [getKey_applyJSDocTags_ne _ _ _ _ _ (by decide) (by decide) (by decide)
            (by decide) (by decide) (by decide) (by decide) (by decide) (by decide)
            (by decide) (by decide) (by decide)
            (fun n => xkey_ne n "properties" (by decide))]
          rw [getKey_setKey_ne _ _ _ _ (by decide)]
          exact hb2props
        · intro _
          rw [getKey_applyJSDocTags_ne _ _ _ _ _ (by decide) (by decide) (by decide)
            (by decide) (by decide) (by decide) (by decide) (by decide) (by decide)
            (by decide) (by decide) (by decide)
            (fun n => xkey_ne n "required" (by decide))]
          rw [getKey_setKey_self, hrq]
        · intro hreq
          exact absurd (hrq.trans hreq) hrqe

/-- Witness for C4: `{name: string, age?: number | undefined-flagged}` — the
required member list is exactly `["name"]`, properties are keyed
`name, age` in order; and an all-optional struct omits `required`. -/
theorem claim4_objects_witness :
    (∃ s, compile (fun _ => none)
        (.mk { fObject := true } "" 0 "" none false none false false
          [({ name := "name" }, .mk { fString := true } "" 0 "" none false none false false [] [] none),
           ({ name := "age", optionalFlag := true },
             .mk { fNumber := true } "" 0 "" none false none false false [] [] none)]
          [] none) = .ok s ∧
      getKey s "type" = some (.str "object") ∧
      (∃ props, getKey s "properties" = some (.obj props) ∧
        props.map Prod.fst = ["name", "age"]) ∧
      getKey s "required" = some (.arr [.str "name"])) ∧
    (∃ s, compile (fun _ => none)
        (.mk { fObject := true } "" 0 "" none false none false false
          [({ name := "age", optionalFlag := true },
             .mk { fNumber := true } "" 0 "" none false none false false [] [] none)]
          [] none) = .ok s ∧
      getKey s "required" = none) := by
  constructor
  · obtain ⟨ht, ⟨props, hp, hk⟩, hr, -⟩ := claim4_objects (fun _ => none)
      (.mk { fObject := true } "" 0 "" none false none false false
        [({ name := "name" }, .mk { fString := true } "" 0 "" none false none false false [] [] none),
         ({ name := "age", optionalFlag := true },
           .mk { fNumber := true } "" 0 "" none false none false false [] [] none)]
        [] none)
      rfl rfl rfl rfl rfl rfl rfl rfl rfl rfl rfl rfl (by decide)
      _ rfl
    exact ⟨_, rfl, ht, ⟨props, hp, hk⟩, hr (by decide)⟩
  · obtain ⟨-, -, -, hr⟩ := claim4_objects (fun _ => none)
      (.mk { fObject := true } "" 0 "" none false none false false
        [({ name := "age", optionalFlag := true },
           .mk { fNumber := true } "" 0 "" none false none false false [] [] none)]
        [] none)
      rfl rfl rfl rfl rfl rfl rfl rfl rfl rfl rfl rfl (by decide)
      _ rfl
    exact ⟨_, rfl, hr (by decide)⟩

/-! ## Claim C9 -/

mutual

/-- The shape invariant at a schema-node position: an object node never
carries both an `enum` key and a `const` key, and the invariant holds
recursively at the nested schema-node positions — the value under `items`
and every value of the `properties` object. -/
def goodSub : JVal → Bool
  | .obj s => ((getKey s "enum").isNone || (getKey s "const").isNone) && goodFieldsN s
  | _ => true

/-- Walk a node's fields, descending only into the schema-node positions. -/
def goodFieldsN : List (String × JVal) → Bool
  | [] => true
  | (k, v) :: rest =>
    (if k = "items" then goodSub v
     else if k = "properties" then goodPropsV v
     else true) && goodFieldsN rest

/-- The value of a `properties` key: each member value is a schema node. -/
def goodPropsV : JVal → Bool
  | .obj ps => goodProps ps
  | _ => true

/-- Walk the entries of a `properties` object. -/
def goodProps : List (String × JVal) → Bool
  | [] => true
  | p :: rest => goodSub p.2 && goodProps rest

end

theorem goodFieldsN_append (a b : List (String × JVal)) :
    goodFieldsN (a ++ b) = (goodFieldsN a && goodFieldsN b) := by
  induction a with
  | nil => simp [goodFieldsN]
  | cons p rest ih =>
    obtain ⟨k, v⟩ := p
    simp [goodFieldsN, ih, Bool.and_assoc]

theorem goodFieldsN_map_set (s : SObj) (k : String) (v : JVal)
    (hk1 : k ≠ "items") (hk2 : k ≠ "properties") :
    goodFieldsN (s.map (fun p => if p.1 = k then (k, v) else p)) = goodFieldsN s := by
  induction s with
  | nil => rfl
  | cons p rest ih =>
    obtain ⟨k', v'⟩ := p
    by_cases hp : k' = k
    · have hif : (if (k', v').1 = k then (k, v) else (k', v')) = (k, v) := by
        simp [hp]
      have hk1' : k' ≠ "items" := by rw [hp]; exact hk1
      have hk2' : k' ≠ "properties" := by rw [hp]; exact hk2
      rw [List.map_cons, hif]
      show ((if k = "items" then goodSub v
             else if k = "properties" then goodPropsV v else true) &&
            goodFieldsN (rest.map (fun p => if p.1 = k then (k, v) else p)))
        = ((if k' = "items" then goodSub v'
            else if k' = "properties" then goodPropsV v' else true) && goodFieldsN rest)
      rw [if_neg hk1, if_neg hk2, if_neg hk1', if_neg hk2', ih]
    · have hif : (if (k', v').1 = k then (k, v) else (k', v')) = (k', v') := by
        simp [hp]
      rw [List.map_cons, hif]
      show ((if k' = "items" then goodSub v'
             else if k' = "properties" then goodPropsV v' else true) &&
            goodFieldsN (rest.map (fun p => if p.1 = k then (k, v) else p)))
        = ((if k' = "items" then goodSub v'
            else if k' = "properties" then goodPropsV v' else true) && goodFieldsN rest)
      rw [ih]

theorem goodFieldsN_setKey (s : SObj) (k : String) (v : JVal)
    (hk1 : k ≠ "items") (hk2 : k ≠ "properties") :
    goodFieldsN (setKey s k v) = goodFieldsN s := by
  unfold setKey
  split
  · exact goodFieldsN_map_set s k v hk1 hk2
  · rw [goodFieldsN_append]
    have h1 : goodFieldsN [(k, v)] = true := by
      simp [goodFieldsN, hk1, hk2]
    rw [h1, Bool.and_true]

theorem goodFieldsN_setNumField (s : SObj) (k : String) (v : Option JsFloat)
    (hk1 : k ≠ "items") (hk2 : k ≠ "properties") :
    goodFieldsN (setNumField s k v) = goodFieldsN s := by
  cases v with
  | some q => exact goodFieldsN_setKey s k _ hk1 hk2
  | none => rfl

theorem goodFieldsN_setIntField (s : SObj) (k : String) (v : Option JsFloat)
    (hk1 : k ≠ "items") (hk2 : k ≠ "properties") :
    goodFieldsN (setIntField s k v) = goodFieldsN s := by
  cases v with
  | some q => exact goodFieldsN_setKey s k _ hk1 hk2
  | none => rfl

theorem goodFieldsN_setStrField (s : SObj) (k : String) (v : Option String)
    (hk1 : k ≠ "items") (hk2 : k ≠ "properties") :
    goodFieldsN (setStrField s k v) = goodFieldsN s := by
  cases v with
  | some q => exact goodFieldsN_setKey s k _ hk1 hk2
  | none => rfl

theorem goodFieldsN_applyDescription (s : SObj) (d : Option String) :
    goodFieldsN (applyDescription s d) = goodFieldsN s := by
  unfold applyDescription
  cases d with
  | some dd =>
    show goodFieldsN (if dd = "" then s else setKey s "description" (.str dd)) = goodFieldsN s
    by_cases he : dd = ""
    · rw [if_pos he]
    · rw [if_neg he]
      exact goodFieldsN_setKey s "description" (.str dd) (by decide) (by decide)
  | none => rfl

theorem goodFieldsN_applyNumberGroup (s : SObj) (tags : TagMap) :
    goodFieldsN (applyNumberGroup s tags) = goodFieldsN s := by
  unfold applyNumberGroup
  split
  · split
    · rw [goodFieldsN_setKey _ _ _ (by decide) (by decide),
        goodFieldsN_setNumField _ _ _ (by decide) (by decide),
        goodFieldsN_setNumField _ _ _ (by decide) (by decide),
        goodFieldsN_setNumField _ _ _ (by decide) (by decide)]
    · rw [goodFieldsN_setNumField _ _ _ (by decide) (by decide),
        goodFieldsN_setNumField _ _ _ (by decide) (by decide),
        goodFieldsN_setNumField _ _ _ (by decide) (by decide)]
  · rfl

theorem goodFieldsN_applyStringGroup (s : SObj) (tags : TagMap) :
    goodFieldsN (applyStringGroup s tags) = goodFieldsN s := by
  unfold applyStringGroup
  split
  · rw [goodFieldsN_setStrField _ _ _ (by decide) (by decide),
      goodFieldsN_setStrField _ _ _ (by decide) (by decide),
      goodFieldsN_setIntField _ _ _ (by decide) (by decide),
      goodFieldsN_setIntField _ _ _ (by decide) (by decide)]
  · rfl

theorem goodFieldsN_applyArrayGroup (s : SObj) (tags : TagMap) :
    goodFieldsN (applyArrayGroup s tags) = goodFieldsN s := by
  unfold applyArrayGroup
  split
  · rw [goodFieldsN_setIntField _ _ _ (by decide) (by decide),
      goodFieldsN_setIntField _ _ _ (by decide) (by decide)]
  · rfl

theorem goodFieldsN_applyDefault (jp : String → Option JVal) (s : SObj) (tags : TagMap) :
    goodFieldsN (applyDefault jp s tags) = goodFieldsN s := by
  unfold applyDefault
  split
  · exact goodFieldsN_setKey _ _ _ (by decide) (by decide)
  · rfl

theorem goodFieldsN_applyUnknown (jp : String → Option JVal) (s : SObj) (tags : TagMap) :
    goodFieldsN (applyUnknown jp s tags) = goodFieldsN s := by
  unfold applyUnknown
  induction tags generalizing s with
  | nil => rfl
  | cons p rest ih =>
    rw [List.foldl_cons]
    by_cases hkn : p.1 ∈ knownTags
    · rw [if_pos hkn]
      exact ih s
    · rw [if_neg hkn]
      rw [ih _]
      exact goodFieldsN_setKey _ _ _ (xkey_ne p.1 "items" (by decide))
        (xkey_ne p.1 "properties" (by decide))

/-- The constraint applicator does not affect the schema-node invariant. -/
theorem apply_goodSub (jp : String → Option JVal) (s : SObj) (tags : TagMap)
    (d : Option String) :
    goodSub (.obj (applyJSDocTags jp s tags d)) = goodSub (.obj s) := by
  show (((getKey (applyJSDocTags jp s tags d) "enum").isNone
      || (getKey (applyJSDocTags jp s tags d) "const").isNone)
      && goodFieldsN (applyJSDocTags jp s tags d))
    = (((getKey s "enum").isNone || (getKey s "const").isNone) && goodFieldsN s)
  rw [getKey_applyJSDocTags_ne _ _ _ _ _ (by decide) (by decide) (by decide) (by decide)
      (by decide) (by decide) (by decide) (by decide) (by decide) (by decide) (by decide)
      (by decide) (fun n => xkey_ne n "enum" (by decide)),
    getKey_applyJSDocTags_ne _ _ _ _ _ (by decide) (by decide) (by decide) (by decide)
      (by decide) (by decide) (by decide) (by decide) (by decide) (by decide) (by decide)
      (by decide) (fun n => xkey_ne n "const" (by decide))]
  unfold applyJSDocTags
  rw [goodFieldsN_applyUnknown, goodFieldsN_applyDefault, goodFieldsN_applyArrayGroup,
    goodFieldsN_applyStringGroup, goodFieldsN_applyNumberGroup, goodFieldsN_applyDescription]

theorem goodProps_append (a b : List (String × JVal)) :
    goodProps (a ++ b) = (goodProps a && goodProps b) := by
  induction a with
  | nil => simp [goodProps]
  | cons p rest ih =>
    simp [goodProps, ih, Bool.and_assoc]

theorem goodProps_map_set (acc : SObj) (k : String) (v : JVal)
    (hv : goodSub v = true) (hacc : goodProps acc = true) :
    goodProps (acc.map (fun p => if p.1 = k then (k, v) else p)) = true := by
  induction acc with
  | nil => rfl
  | cons p rest ih =>
    simp only [goodProps, Bool.and_eq_true] at hacc
    by_cases hp : p.1 = k
    · have hif : (if p.1 = k then (k, v) else p) = (k, v) := by simp [hp]
      rw [List.map_cons, hif]
      simp only [goodProps, Bool.and_eq_true]
      exact ⟨hv, ih hacc.2⟩
    · have hif : (if p.1 = k then (k, v) else p) = p := by simp [hp]
      rw [List.map_cons, hif]
      simp only [goodProps, Bool.and_eq_true]
      exact ⟨hacc.1, ih hacc.2⟩

theorem goodProps_setKey (acc : SObj) (k : String) (v : JVal)
    (hv : goodSub v = true) (hacc : goodProps acc = true) :
    goodProps (setKey acc k v) = true := by
  unfold setKey
  split
  · exact goodProps_map_set acc k v hv hacc
  · rw [goodProps_append, hacc, Bool.true_and]
    simp [goodProps, hv]

/-- The object-member loop preserves the schema-node invariant of the
accumulated `properties` object, given it for every member compilation. -/
theorem compileProps_good (jp : String → Option JVal) :
    ∀ (l : List (PropMeta × Ty)),
      (∀ p ∈ l, ∀ s, compile jp p.2 = .ok s → goodSub (.obj s) = true) →
      ∀ acc req po rq, compileProps jp l acc req = .ok (po, rq) →
        goodProps acc = true → goodProps po = true := by
  intro l
  induction l with
  | nil =>
    intro _ acc req po rq h hacc
    unfold compileProps at h
    injection h with h
    injection h with h1 h2
    subst h1
    exact hacc
  | cons hd rest ih =>
    obtain ⟨pm, pt⟩ := hd
    intro IH acc req po rq h hacc
    unfold compileProps at h
    cases hc : compile jp pt with
    | error e =>
      rw [hc] at h
      cases h
    | ok child =>
      rw [hc] at h
      have hchild : goodSub (.obj (applyJSDocTags jp child pm.tags pm.descr)) = true := by
        rw [apply_goodSub]
        exact IH (pm, pt) (List.mem_cons_self _ _) child hc
      exact ih (fun p hp => IH p (List.mem_cons_of_mem _ hp)) _ _ po rq h
        (goodProps_setKey acc pm.name _ hchild hacc)

/-- Size-bounded form of the compile invariant, by strong induction on the
descriptor size. -/
theorem compile_good_aux (jp : String → Option JVal) :
    ∀ (n : ℕ) (t : Ty), sizeOf t ≤ n →
      ∀ s, compile jp t = .ok s → goodSub (.obj s) = true := by
  intro n
  induction n with
  | zero =>
    intro t hsz
    exfalso
    cases t
    simp at hsz
  | succ n ih =>
    intro t hsz s h
    obtain ⟨fl, sv, nv, ts, un, ia, ta, it, ii, pr, tg, de⟩ := t
    simp only [Ty.mk.sizeOf_spec] at hsz
    unfold compile at h
    by_cases hf1 : fl.fString = true
    · rw [if_pos hf1] at h
      injection h with h
      subst h
      rw [apply_goodSub]
      rfl
    rw [if_neg hf1] at h
    by_cases hf2 : fl.fStringLit = true
    · rw [if_pos hf2] at h
      injection h with h
      subst h
      rw [apply_goodSub]
      rfl
    rw [if_neg hf2] at h
    by_cases hf3 : fl.fNumber = true
    · rw [if_pos hf3] at h
      injection h with h
      subst h
      rw [apply_goodSub]
      rfl
    rw [if_neg hf3] at h
    by_cases hf4 : fl.fNumberLit = true
    · rw [if_pos hf4] at h
      injection h with h
      subst h
      rw [apply_goodSub]
      rfl
    rw [if_neg hf4] at h
    by_cases hf5 : fl.fBoolean = true
    · rw [if_pos hf5] at h
      injection h with h
      subst h
      rw [apply_goodSub]
      rfl
    rw [if_neg hf5] at h
    by_cases hf6 : fl.fBoolLit = true
    · rw [if_pos hf6] at h
      injection h with h
      subst h
      rw [apply_goodSub]
      rfl
    rw [if_neg hf6] at h
    by_cases hf7 : fl.fNull = true
    · rw [if_pos hf7] at h
      injection h with h
      subst h
      rw [apply_goodSub]
      rfl
    rw [if_neg hf7] at h
    by_cases hf8 : fl.fUndefined = true
    · rw [if_pos hf8] at h
      injection h with h
      subst h
      rw [apply_goodSub]
      rfl
    rw [if_neg hf8] at h
    split at h
    · -- enum branch took effect
      injection h with h
      subst h
      rw [apply_goodSub]
      rfl
    · cases un with
      | some members =>
        simp only [] at h
        cases hul : unionLitVals members with
        | some vals =>
          rw [hul] at h
          simp only [] at h
          split at h
          · injection h with h
            subst h
            rw [apply_goodSub]
            rfl
          · cases h
        | none =>
          rw [hul] at h
          simp only [] at h
          cases h
      | none =>
        simp only [] at h
        by_cases hia : ia = true
        · rw [if_pos hia] at h
          cases ta with
          | none =>
            simp only [] at h
            injection h with h
            subst h
            rw [apply_goodSub]
            rfl
          | some args =>
            cases args with
            | nil =>
              simp only [] at h
              injection h with h
              subst h
              rw [apply_goodSub]
              rfl
            | cons a rest' =>
              simp only [] at h
              cases hca : compile jp a with
              | error e =>
                rw [hca] at h
                cases h
              | ok items =>
                rw [hca] at h
                injection h with h
                subst h
                have hsa : sizeOf a ≤ n := by
                  simp only [Option.some.sizeOf_spec, List.cons.sizeOf_spec] at hsz
                  omega
                have hitems : goodSub (.obj items) = true := ih a hsa items hca
                rw [apply_goodSub]
                have hf : goodFieldsN [("type", JVal.str "array"), ("items", JVal.obj items)]
                    = goodSub (.obj items) := by
                  simp [goodFieldsN]
                show (((getKey [("type", JVal.str "array"), ("items", JVal.obj items)]
                      "enum").isNone
                    || (getKey [("type", JVal.str "array"), ("items", JVal.obj items)]
                      "const").isNone)
                    && goodFieldsN [("type", JVal.str "array"), ("items", JVal.obj items)])
                  = true
                rw [hf, hitems]
                rfl
        · rw [if_neg hia] at h
          by_cases hit : it = true
          · rw [if_pos hit] at h
            cases h
          rw [if_neg hit] at h
          by_cases hobj : fl.fObject = true
          · rw [if_pos hobj] at h
            cases hcp : compileProps jp pr [] [] with
            | error e =>
              rw [hcp] at h
              cases h
            | ok por =>
              obtain ⟨po, rq⟩ := por
              rw [hcp] at h
              injection h with h
              subst h
              have hIH : ∀ p ∈ pr, ∀ s', compile jp p.2 = .ok s' →
                  goodSub (.obj s') = true := by
                intro p hp s' hc
                have h1 := List.sizeOf_lt_of_mem hp
                have h2 : sizeOf p.2 < sizeOf p := by
                  obtain ⟨pm, pt⟩ := p
                  simp
                exact ih p.2 (by omega) s' hc
              have hgoodpo : goodProps po = true :=
                compileProps_good jp pr hIH [] [] po rq hcp rfl
              rw [apply_goodSub]
              by_cases hrq : rq ≠ []
              · rw [if_pos hrq]
                simp [goodSub, goodFieldsN, goodPropsV, getKey, setKey,
                  List.find?, hgoodpo]
              · rw [if_neg hrq]
                simp [goodSub, goodFieldsN, goodPropsV, getKey, setKey,
                  List.find?, hgoodpo]
          · rw [if_neg hobj] at h
            by_cases hii : ii = true
            · rw [if_pos hii] at h
              cases h
            · rw [if_neg hii] at h
              cases h

/-- C9: every schema node produced by a successful `compile` — including
every nested node under `items` and under `properties` — never carries both
an `enum` key and a `const` key. -/
theorem claim9_enum_const_exclusive (jp : String → Option JVal) (t : Ty) (s : SObj)
    (h : compile jp t = .ok s) : goodSub (.obj s) = true :=
  compile_good_aux jp (sizeOf t) t le_rfl s h

/-- Witness for C9: a struct with a literal-union member and an array member,
whose compilation nests nodes under `properties` and `items`. -/
theorem claim9_enum_const_exclusive_witness :
    compile (fun _ => none)
        (.mk { fObject := true } "" 0 "" none false none false false
          [({ name := "status" },
             .mk {} "" 0 ""
               (some [.mk { fStringLit := true } "a" 0 "" none false none false false [] [] none,
                      .mk { fStringLit := true } "b" 0 "" none false none false false [] [] none])
               false none false false [] [] none),
           ({ name := "tags" },
             .mk {} "" 0 "" none true
               (some [.mk { fString := true } "" 0 "" none false none false false [] [] none])
               false false [] [] none)]
          [] none)
      = .ok [("type", .str "object"),
             ("properties", .obj
               [("status", .obj [("enum", .arr [.str "a", .str "b"])]),
                ("tags", .obj [("type", .str "array"),
                               ("items", .obj [("type", .str "string")])])]),
             ("required", .arr [.str "status", .str "tags"])] ∧
    goodSub (.obj [("type", .str "object"),
             ("properties", .obj
               [("status", .obj [("enum", .arr [.str "a", .str "b"])]),
                ("tags", .obj [("type", .str "array"),
                               ("items", .obj [("type", .str "string")])])]),
             ("required", .arr [.str "status", .str "tags"])]) = true :=
  ⟨rfl,
   claim9_enum_const_exclusive (fun _ => none)
     (.mk { fObject := true } "" 0 "" none false none false false
       [({ name := "status" },
          .mk {} "" 0 ""
            (some [.mk { fStringLit := true } "a" 0 "" none false none false false [] [] none,
                   .mk { fStringLit := true } "b" 0 "" none false none false false [] [] none])
            false none false false [] [] none),
        ({ name := "tags" },
          .mk {} "" 0 "" none true
            (some [.mk { fString := true } "" 0 "" none false none false false [] [] none])
            false false [] [] none)]
       [] none)
     _ rfl⟩

end TsJsonSchema
